import Mathlib

/-!
nexus-cli: a shallow embedding of `cmd/nexus-cli/main.go` and
`internal/pkg/registry/registry.go`.

The Go program is embedded as executable Lean functions.

* Go `int`/`int64` values are `Int`; the one arithmetic operation that can
  overflow observably (`totalSize += size`, an `int64`) wraps explicitly.
* A Go slice is `Option (List α)`; `none` is the nil slice.
* A Go `error` is `Option String`; `none` is `nil`, `some m` an error whose
  `Error()` text is `m`.
* `time.Time` is the instant it denotes.
* The Go standard library and the network are parameters: `sort.Sort`
  (`SortImpl`), the iteration order of `range` over a map (`MapRange`), the
  HTTP stack and the decoders (`Net`).
-/

set_option autoImplicit false

namespace NexusCli

/-! ## Go values -/

/-- Go `error`: `none` is `nil`. -/
abbrev Err := Option String

/-- The elements of a Go slice; the nil slice has none. -/
def elems {α : Type} (s : Option (List α)) : List α := s.getD []

/-- Go `len(s)` as an `int`. -/
def len {α : Type} (s : Option (List α)) : Int := ((elems s).length : Int)

/-- A `time.Time`, as the instant it denotes (nanoseconds since the epoch). -/
structure Time where
  nsec : Int
  deriving DecidableEq, Repr, Inhabited

/-- Go `t.Before(u)`: the instant `t` is strictly earlier than `u`. -/
def Time.Before (t u : Time) : Bool := decide (t.nsec < u.nsec)

instance : LE Time := ⟨fun t u => t.nsec ≤ u.nsec⟩

instance : LT Time := ⟨fun t u => t.nsec < u.nsec⟩

instance (t u : Time) : Decidable (t ≤ u) := inferInstanceAs (Decidable (t.nsec ≤ u.nsec))

instance (t u : Time) : Decidable (t < u) := inferInstanceAs (Decidable (t.nsec < u.nsec))

/-- Two's-complement wraparound of a Go `int64` result. -/
def wrap64 (x : Int) : Int := (x + 2 ^ 63) % 2 ^ 64 - 2 ^ 63

/-! ## `main.go`: `tagDate`, `tagsAndDate` and its `sort.Interface` methods -/

/-- Go `type tagDate struct { Tag string; Date time.Time }`. -/
structure tagDate where
  Tag : String
  Date : Time
  deriving DecidableEq, Repr, Inhabited

/-- Go `type tagsAndDate []tagDate`. -/
abbrev tagsAndDate := List tagDate

/-- Go `func (p tagsAndDate) Len() int`. -/
def tagsAndDate.Len (p : tagsAndDate) : Nat := p.length

/-- Go `func (p tagsAndDate) Less(i, j int) bool`:
`p[i].Date.Before(p[j].Date)`.  An index out of range panics in Go; the
model answers `false` there. -/
def tagsAndDate.Less (p : tagsAndDate) (i j : Nat) : Bool :=
  match p[i]?, p[j]? with
  | some a, some b => a.Date.Before b.Date
  | _, _ => false

/-- Go `func (p tagsAndDate) Swap(i, j int)`: `p[i], p[j] = p[j], p[i]`.
An index out of range panics in Go; the model leaves `p` unchanged there. -/
def tagsAndDate.Swap (p : tagsAndDate) (i j : Nat) : tagsAndDate :=
  match p[i]?, p[j]? with
  | some a, some b => (p.set i b).set j a
  | _, _ => p

/-! ## `sort.Sort` -/

/-- The lists `sort.Sort` can turn `p` into: it changes its argument only
through `Swap`, at indices below `Len`. -/
inductive SwapReach : tagsAndDate → tagsAndDate → Prop
  | refl (p : tagsAndDate) : SwapReach p p
  | step {p q : tagsAndDate} (i j : Nat) (hi : i < p.Len) (hj : j < p.Len)
      (h : SwapReach (p.Swap i j) q) : SwapReach p q

/-- Go `sort.Sort` applied to a `tagsAndDate`, with the contract of its
documentation: it reorders the data through `Swap` only, and on return the
data are in ascending order as determined by `Less` (no later element is
`Less` than an earlier one).  Stability is not part of the contract. -/
structure SortImpl where
  sort : tagsAndDate → tagsAndDate
  by_swaps : ∀ p, SwapReach p (sort p)
  ascending : ∀ p i j, i < j → j < (sort p).Len → (sort p).Less j i = false

/-- The order `Less` sorts by, on elements. -/
def dateLE (a b : tagDate) : Prop := a.Date ≤ b.Date

instance : DecidableRel dateLE := fun a b => inferInstanceAs (Decidable (a.Date ≤ b.Date))

instance : IsTotal tagDate dateLE := ⟨fun a b => Int.le_total a.Date.nsec b.Date.nsec⟩

instance : IsTrans tagDate dateLE :=
  ⟨fun a b c (h₁ : a.Date.nsec ≤ b.Date.nsec) (h₂ : b.Date.nsec ≤ c.Date.nsec) =>
    Int.le_trans h₁ h₂⟩

/-- The gap-6 pass that `sort.Sort` of Go 1.7 to 1.18 runs on a slice of at
most 12 elements before its insertion sort (`quickSort`, with `a = 0` and
`b = Len`): `for i := a + 6; i < b; i++ { if data.Less(i, i-6) {
data.Swap(i, i-6) } }`.  `fuel` counts the iterations left, `i` is the loop
variable. -/
def shellPass : Nat → Nat → tagsAndDate → tagsAndDate
  | 0, _, p => p
  | fuel + 1, i, p =>
    if i < p.Len then
      shellPass fuel (i + 1) (if p.Less i (i - 6) then p.Swap i (i - 6) else p)
    else p

/-- The sort Go 1.7 to 1.18 runs on a slice of at most 12 elements: the
gap-6 pass, then insertion sort (a stable sort, here `List.insertionSort`). -/
def legacySortFn (p : tagsAndDate) : tagsAndDate :=
  List.insertionSort dateLE (shellPass (p.Len - 6) 6 p)

/-! ## `registry.go`: data -/

/-- Go `const acceptHeader`. -/
def acceptHeader : String := "application/vnd.docker.distribution.manifest.v2+json"

/-- Go `const credentialsFile`. -/
def credentialsFile : String := ".credentials"

/-- Go `type Registry struct`: the credentials. -/
structure Registry where
  Host : String
  Username : String
  Password : String
  Repository : String
  deriving DecidableEq, Repr, Inhabited

/-- Go `type repositories struct { Images []string }`. -/
structure repositories where
  Images : Option (List String)
  deriving DecidableEq, Repr, Inhabited

/-- Go `type imageTags struct { Name string; Tags []string }`. -/
structure imageTags where
  Name : String
  Tags : Option (List String)
  deriving DecidableEq, Repr, Inhabited

/-- Go `type layerInfo struct`. -/
structure layerInfo where
  MediaType : String
  Size : Int
  Digest : String
  deriving DecidableEq, Repr, Inhabited

/-- Go `type ImageManifest struct`. -/
structure ImageManifest where
  SchemaVersion : Int
  MediaType : String
  Config : layerInfo
  Layers : Option (List layerInfo)
  deriving DecidableEq, Repr, Inhabited

/-- The zero value of `ImageManifest` (`var imageManifest ImageManifest`). -/
def ImageManifest.zero : ImageManifest :=
  { SchemaVersion := 0, MediaType := "", Layers := none,
    Config := { MediaType := "", Size := 0, Digest := "" } }

/-! ## The HTTP stack and the process environment -/

/-- An `*http.Request` as this program builds it. -/
structure Request where
  Method : String
  URL : String
  BasicAuth : Option (String × String)
  Header : List (String × String)
  deriving DecidableEq, Repr, Inhabited

/-- Go `req.SetBasicAuth(username, password)`. -/
def Request.SetBasicAuth (req : Request) (username password : String) : Request :=
  { req with BasicAuth := some (username, password) }

/-- Go `req.Header.Add(key, value)`. -/
def Request.HeaderAdd (req : Request) (key value : String) : Request :=
  { req with Header := req.Header ++ [(key, value)] }

/-- An `*http.Response`, as far as the program reads it: `HeaderGet` is
`resp.Header.Get`, `Body` the bytes of `resp.Body`. -/
structure Response where
  StatusCode : Int
  HeaderGet : String → String
  Body : String

/-- An argument of a formatted print. -/
inductive Arg
  | str (s : String)
  | int (n : Int)
  | time (t : Time)
  deriving DecidableEq, Repr

/-- One output operation: `printf` is a `fmt.Printf`, `fmt.Println` or
`fmt.Fprintf` with its format and arguments, `help` is
`cli.ShowSubcommandHelp`. -/
inductive Out
  | printf (format : String) (args : List Arg)
  | help
  deriving DecidableEq, Repr

/-- The library and the world behind `registry.go`, over a state `σ` of the
network and the file system.
* `requestError m u` is the error `http.NewRequest(m, u, nil)` returns, if any;
* `Do` is `client.Do`: a transport error or a response, and the next state;
* `Now` is `time.Now()`; `parseRFC1123 s` is `time.Parse(time.RFC1123, s)`;
* `decode…` is `json.NewDecoder(body).Decode(&v)` on a zero `v`, read back
  (the program ignores the decoder's error);
* `Stat` is the error of `os.Stat`, with whether `os.IsNotExist` holds of it;
* `DecodeFile` is `toml.DecodeFile` into a zero `Registry`, with its error. -/
structure Net (σ : Type) where
  requestError : String → String → Option String
  Do : Request → σ → Except String Response × σ
  Now : σ → Time
  parseRFC1123 : String → Except String Time
  decodeRepositories : String → repositories
  decodeImageTags : String → imageTags
  decodeImageManifest : String → ImageManifest
  Stat : String → σ → Option (Bool × String)
  DecodeFile : String → σ → Registry × Err

/-- The state `registry.go` runs in: the network and file system, the
requests handed to `client.Do` so far and what the package printed. -/
structure World (σ : Type) where
  net : σ
  sent : List Request
  stdout : List Out

/-- Go `http.NewRequest(method, url, nil)`. -/
def NewRequest {σ : Type} (N : Net σ) (method url : String) : Except String Request :=
  match N.requestError method url with
  | some err => .error err
  | none => .ok { Method := method, URL := url, BasicAuth := none, Header := [] }

/-- Go `client.Do(req)`, recording the request. -/
def clientDo {σ : Type} (N : Net σ) (req : Request) (w : World σ) :
    Except String Response × World σ :=
  ((N.Do req w.net).1, { w with net := (N.Do req w.net).2, sent := w.sent ++ [req] })

/-- Go `fmt.Errorf("HTTP Code: %d", code)`. -/
def httpCodeError (code : Int) : String := "HTTP Code: " ++ toString code

/-! ## `registry.go`: operations -/

/-- Go `func NewRegistry() (Registry, error)`. -/
def NewRegistry {σ : Type} (N : Net σ) (w : World σ) : Registry × Err :=
  let r : Registry := { Host := "", Username := "", Password := "", Repository := "" }
  match N.Stat credentialsFile w.net with
  | some (true, err) => (r, some (credentialsFile ++ " file not found: " ++ err))
  | some (false, err) => (r, some err)
  | none =>
    match N.DecodeFile credentialsFile w.net with
    | (r, some err) => (r, some err)
    | (r, none) => (r, none)

/-- Go `func (r Registry) ListImages() ([]string, error)`. -/
def Registry.ListImages {σ : Type} (N : Net σ) (r : Registry) (w : World σ) :
    (Option (List String) × Err) × World σ :=
  let url := r.Host ++ "/repository/" ++ r.Repository ++ "/v2/_catalog"
  match NewRequest N "GET" url with
  | .error err => ((none, some err), w)
  | .ok req =>
    let req := (req.SetBasicAuth r.Username r.Password).HeaderAdd "Accept" acceptHeader
    match clientDo N req w with
    | (.error err, w) => ((none, some err), w)
    | (.ok resp, w) =>
      if resp.StatusCode ≠ 200 then
        ((none, some (httpCodeError resp.StatusCode)), w)
      else
        (((N.decodeRepositories resp.Body).Images, none), w)

/-- Go `func (r Registry) ListTagsByImage(image string) ([]string, error)`. -/
def Registry.ListTagsByImage {σ : Type} (N : Net σ) (r : Registry) (image : String)
    (w : World σ) : (Option (List String) × Err) × World σ :=
  let url := r.Host ++ "/repository/" ++ r.Repository ++ "/v2/" ++ image ++ "/tags/list"
  match NewRequest N "GET" url with
  | .error err => ((none, some err), w)
  | .ok req =>
    let req := (req.SetBasicAuth r.Username r.Password).HeaderAdd "Accept" acceptHeader
    match clientDo N req w with
    | (.error err, w) => ((none, some err), w)
    | (.ok resp, w) =>
      if resp.StatusCode ≠ 200 then
        ((none, some (httpCodeError resp.StatusCode)), w)
      else
        (((N.decodeImageTags resp.Body).Tags, none), w)

/-- The URL `fmt.Sprintf("%s/repository/%s/v2/%s/manifests/%s", r.Host,
r.Repository, image, ref)` of a manifest, by tag or by digest. -/
def Registry.manifestURL (r : Registry) (image ref : String) : String :=
  r.Host ++ "/repository/" ++ r.Repository ++ "/v2/" ++ image ++ "/manifests/" ++ ref

/-- Go `func (r Registry) ImageManifest(image string, tag string)
(ImageManifest, error)`. -/
def Registry.ImageManifest {σ : Type} (N : Net σ) (r : Registry) (image tag : String)
    (w : World σ) : (ImageManifest × Err) × World σ :=
  let imageManifest := ImageManifest.zero
  let url := r.manifestURL image tag
  match NewRequest N "GET" url with
  | .error err => ((imageManifest, some err), w)
  | .ok req =>
    let req := (req.SetBasicAuth r.Username r.Password).HeaderAdd "Accept" acceptHeader
    match clientDo N req w with
    | (.error err, w) => ((imageManifest, some err), w)
    | (.ok resp, w) =>
      if resp.StatusCode ≠ 200 then
        ((imageManifest, some (httpCodeError resp.StatusCode)), w)
      else
        ((N.decodeImageManifest resp.Body, none), w)

/-- Go `func (r Registry) getImageSHA(image string, tag string) (string, error)`. -/
def Registry.getImageSHA {σ : Type} (N : Net σ) (r : Registry) (image tag : String)
    (w : World σ) : (String × Err) × World σ :=
  let url := r.manifestURL image tag
  match NewRequest N "GET" url with
  | .error err => (("", some err), w)
  | .ok req =>
    let req := (req.SetBasicAuth r.Username r.Password).HeaderAdd "Accept" acceptHeader
    match clientDo N req w with
    | (.error err, w) => (("", some err), w)
    | (.ok resp, w) =>
      if resp.StatusCode ≠ 200 then
        (("", some (httpCodeError resp.StatusCode)), w)
      else
        ((resp.HeaderGet "docker-content-digest", none), w)

/-- Go `func (r Registry) DeleteImageByTag(image string, tag string) error`. -/
def Registry.DeleteImageByTag {σ : Type} (N : Net σ) (r : Registry) (image tag : String)
    (w : World σ) : Err × World σ :=
  match r.getImageSHA N image tag w with
  | ((_, some err), w) => (some err, w)
  | ((sha, none), w) =>
    let url := r.manifestURL image sha
    match NewRequest N "DELETE" url with
    | .error err => (some err, w)
    | .ok req =>
      let req := (req.SetBasicAuth r.Username r.Password).HeaderAdd "Accept" acceptHeader
      match clientDo N req w with
      | (.error err, w) => (some err, w)
      | (.ok resp, w) =>
        if resp.StatusCode ≠ 202 then
          (some (httpCodeError resp.StatusCode), w)
        else
          (none, { w with stdout := w.stdout ++
            [.printf "%s:%s has been successful deleted\n" [.str image, .str tag]] })

/-- Go `func (r Registry) GetImageTagDate(image string, tag string)
(time.Time, error)`. -/
def Registry.GetImageTagDate {σ : Type} (N : Net σ) (r : Registry) (image tag : String)
    (w : World σ) : (Time × Err) × World σ :=
  let url := r.manifestURL image tag
  match NewRequest N "GET" url with
  | .error err => ((N.Now w.net, some err), w)
  | .ok req =>
    let req := (req.SetBasicAuth r.Username r.Password).HeaderAdd "Accept" acceptHeader
    match clientDo N req w with
    | (.error err, w) => ((N.Now w.net, some err), w)
    | (.ok resp, w) =>
      if resp.StatusCode ≠ 200 then
        ((N.Now w.net, some (httpCodeError resp.StatusCode)), w)
      else
        match N.parseRFC1123 (resp.HeaderGet "last-modified") with
        | .error err => ((N.Now w.net, some err), w)
        | .ok t => ((t, none), w)

/-! ## `main.go`: the commands

The commands are embedded over the interface of package `registry` they
use (`Client`), so that what is proved of them holds of every registry
behaviour; `registryClient` is the package itself. -/

/-- Package `registry` as `main.go` calls it, over a state `σ`; each method
takes the `Registry` receiver.  `GetImageDate` is the tag-date fetch
`r.GetImageDate(imgName, tag)` of `main.go`. -/
structure Client (σ : Type) where
  NewRegistry : σ → Registry × Err
  ListImages : Registry → σ → (Option (List String) × Err) × σ
  ListTagsByImage : Registry → String → σ → (Option (List String) × Err) × σ
  ImageManifest : Registry → String → String → σ → (ImageManifest × Err) × σ
  GetImageDate : Registry → String → String → σ → (Time × Err) × σ
  DeleteImageByTag : Registry → String → String → σ → Err × σ

/-- Package `registry` of `registry.go` as a `Client`; the tag-date fetch is
`GetImageTagDate`. -/
def registryClient {σ : Type} (N : Net σ) : Client (World σ) where
  NewRegistry := NewRegistry N
  ListImages := fun r => r.ListImages N
  ListTagsByImage := fun r => r.ListTagsByImage N
  ImageManifest := fun r => r.ImageManifest N
  GetImageDate := fun r => r.GetImageTagDate N
  DeleteImageByTag := fun r => r.DeleteImageByTag N

/-- The flags of a `*cli.Context`: `c.String("name")`, `c.String("tag")` and
`c.Int("keep")`. -/
structure Context where
  name : String
  tag : String
  keep : Int
  deriving DecidableEq, Repr, Inhabited

/-- A call of a `registry` method by a command. -/
inductive Call
  | ListImages
  | ListTagsByImage (image : String)
  | ImageManifest (image tag : String)
  | GetImageDate (image tag : String)
  | DeleteImageByTag (image tag : String)
  deriving DecidableEq, Repr

/-- A call and the error it returned. -/
structure Event where
  call : Call
  err : Err
  deriving DecidableEq, Repr

/-- How a command's action ends: it returns `nil`, it returns
`cli.NewExitError(message, exitCode)`, or the Go runtime panics. -/
inductive Ret
  | nil
  | exitError (message : String) (exitCode : Int)
  | panic (what : String)
  deriving DecidableEq, Repr

/-- A run of a command's action: how it ended, what `main.go` printed, the
`registry` calls it made in order, and the final state. -/
structure Result (σ : Type) where
  ret : Ret
  out : List Out
  calls : List Event
  state : σ

/-- Go slice expression `s[:hi]` on a slice of capacity `cap`: the runtime
panics unless `0 <= hi <= cap`. -/
def sliceTo {α : Type} (s : List α) (cap : Nat) (hi : Int) : Option (List α) :=
  if 0 ≤ hi ∧ hi ≤ (cap : Int) then some (s.take hi.toNat) else none

/-- Go `func listImages(c *cli.Context) error`. -/
def listImages {σ : Type} (C : Client σ) (_c : Context) (s : σ) : Result σ :=
  match C.NewRegistry s with
  | (_, some err) => { ret := .exitError err 1, out := [], calls := [], state := s }
  | (r, none) =>
    match C.ListImages r s with
    | ((_, some err), s1) =>
      { ret := .exitError err 1, out := [], calls := [⟨.ListImages, some err⟩], state := s1 }
    | ((images, none), s1) =>
      { ret := .nil,
        out := (elems images).map (fun image => Out.printf "%v\n" [.str image]) ++
          [.printf "Total images: %d\n" [.int (len images)]],
        calls := [⟨.ListImages, none⟩], state := s1 }

/-- The loop `for _, tag := range tags { date, err := r.GetImageDate(imgName,
tag); if err != nil { return cli.NewExitError(err.Error(), 1) }; sortedTags =
append(sortedTags, tagDate{Date: date, Tag: tag}) }` of `listTagsByImage` and
of `deleteImage`: the error that ends it or the `sortedTags` it builds, the
calls made and the final state. -/
def fetchDates {σ : Type} (C : Client σ) (r : Registry) (imgName : String) :
    List String → σ → Except String tagsAndDate × List Event × σ
  | [], s => (.ok [], [], s)
  | tag :: rest, s =>
    match C.GetImageDate r imgName tag s with
    | ((_, some err), s1) => (.error err, [⟨.GetImageDate imgName tag, some err⟩], s1)
    | ((date, none), s1) =>
      match fetchDates C r imgName rest s1 with
      | (.error err, evs, s2) => (.error err, ⟨.GetImageDate imgName tag, none⟩ :: evs, s2)
      | (.ok sortedTags, evs, s2) =>
        (.ok ({ Date := date, Tag := tag } :: sortedTags),
          ⟨.GetImageDate imgName tag, none⟩ :: evs, s2)

/-- Go `func listTagsByImage(c *cli.Context) error`. -/
def listTagsByImage {σ : Type} (C : Client σ) (S : SortImpl) (c : Context) (s : σ) :
    Result σ :=
  let imgName := c.name
  match C.NewRegistry s with
  | (_, some err) => { ret := .exitError err 1, out := [], calls := [], state := s }
  | (r, none) =>
    let out0 : List Out := if imgName == "" then [.help] else []
    match C.ListTagsByImage r imgName s with
    | ((tags, err), s1) =>
      let ev : Event := ⟨.ListTagsByImage imgName, err⟩
      match fetchDates C r imgName (elems tags) s1 with
      | (.error err, evs, s2) =>
        { ret := .exitError err 1, out := out0, calls := ev :: evs, state := s2 }
      | (.ok sortedTags, evs, s2) =>
        let sortedTags := S.sort sortedTags
        { ret := .nil,
          out := out0 ++
            sortedTags.map (fun tag =>
              Out.printf "%s created at %s\n" [.str tag.Tag, .time tag.Date]) ++
            [.printf "There are %d images for %s\n" [.int (len tags), .str imgName]],
          calls := ev :: evs, state := s2 }

/-- Go `func showImageInfo(c *cli.Context) error`. -/
def showImageInfo {σ : Type} (C : Client σ) (c : Context) (s : σ) : Result σ :=
  let imgName := c.name
  let tag := c.tag
  match C.NewRegistry s with
  | (_, some err) => { ret := .exitError err 1, out := [], calls := [], state := s }
  | (r, none) =>
    let out0 : List Out := if imgName == "" || tag == "" then [.help] else []
    match C.ImageManifest r imgName tag s with
    | ((_, some err), s1) =>
      { ret := .exitError err 1, out := out0,
        calls := [⟨.ImageManifest imgName tag, some err⟩], state := s1 }
    | ((manifest, none), s1) =>
      { ret := .nil,
        out := out0 ++
          [.printf "Image: %s:%s\n" [.str imgName, .str tag],
           .printf "Size: %d\n" [.int manifest.Config.Size],
           .printf "%v\n" [.str "Layers:"]] ++
          (elems manifest.Layers).map (fun layer =>
            Out.printf "\t%s\t%d\n" [.str layer.Digest, .int layer.Size]),
        calls := [⟨.ImageManifest imgName tag, none⟩], state := s1 }

/-- The loop `for _, tag := range sortedTags[:len(tags)-keep] { fmt.Printf(…);
r.DeleteImageByTag(imgName, tag.Tag) }` of `deleteImage`, over the slice it
ranges over.  The value `DeleteImageByTag` returns is dropped, as in the
source; it is kept in the call record only. -/
def deleteLoop {σ : Type} (C : Client σ) (r : Registry) (imgName : String) :
    tagsAndDate → σ → List Out × List Event × σ
  | [], s => ([], [], s)
  | tag :: rest, s =>
    match C.DeleteImageByTag r imgName tag.Tag s with
    | (err, s1) =>
      match deleteLoop C r imgName rest s1 with
      | (out, evs, s2) =>
        (.printf "%s:%s image will be deleted ...\n" [.str imgName, .str tag.Tag] :: out,
          ⟨.DeleteImageByTag imgName tag.Tag, err⟩ :: evs, s2)

/-- Go `func deleteImage(c *cli.Context) error`.  The bound
`len(tags)-keep` is taken in ℤ: with `keep` a Go `int` it leaves the `int`
range only for `keep < 0`, where it is out of the slice's range with or
without wraparound. -/
def deleteImage {σ : Type} (C : Client σ) (S : SortImpl) (c : Context) (s : σ) :
    Result σ :=
  let imgName := c.name
  let tag := c.tag
  let keep := c.keep
  if imgName == "" then
    { ret := .nil, out := [.printf "You should specify the image name\n" [], .help],
      calls := [], state := s }
  else
    match C.NewRegistry s with
    | (_, some err) => { ret := .exitError err 1, out := [], calls := [], state := s }
    | (r, none) =>
      if tag == "" then
        if keep == 0 then
          { ret := .nil,
            out := [.printf ("You should either specify the tag or how many images " ++
              "you want to keep\n") [], .help],
            calls := [], state := s }
        else
          match C.ListTagsByImage r imgName s with
          | ((_, some err), s1) =>
            { ret := .exitError err 1, out := [],
              calls := [⟨.ListTagsByImage imgName, some err⟩], state := s1 }
          | ((tags, none), s1) =>
            let ev : Event := ⟨.ListTagsByImage imgName, none⟩
            if len tags ≤ keep then
              { ret := .nil, out := [.printf "Only %d images are available\n" [.int (len tags)]],
                calls := [ev], state := s1 }
            else
              match fetchDates C r imgName (elems tags) s1 with
              | (.error err, evs, s2) =>
                { ret := .exitError err 1, out := [], calls := ev :: evs, state := s2 }
              | (.ok sortedTags, evs, s2) =>
                let sortedTags := S.sort sortedTags
                match sliceTo sortedTags (elems tags).length (len tags - keep) with
                | none =>
                  { ret := .panic "slice bounds out of range", out := [],
                    calls := ev :: evs, state := s2 }
                | some oldest =>
                  match deleteLoop C r imgName oldest s2 with
                  | (out, devs, s3) =>
                    { ret := .nil, out := out, calls := ev :: evs ++ devs, state := s3 }
      else
        match C.DeleteImageByTag r imgName tag s with
        | (some err, s1) =>
          { ret := .exitError err 1, out := [],
            calls := [⟨.DeleteImageByTag imgName tag, some err⟩], state := s1 }
        | (none, s1) =>
          { ret := .nil, out := [], calls := [⟨.DeleteImageByTag imgName tag, none⟩],
            state := s1 }

/-- Go `sizeInfo[key] = value` on a `map[string]int64`, kept as a list of
entries with distinct keys. -/
def mapSet : List (String × Int) → String → Int → List (String × Int)
  | [], key, value => [(key, value)]
  | (k, v) :: rest, key, value =>
    if k = key then (key, value) :: rest else (k, v) :: mapSet rest key value

/-- The order in which `range` visits the entries of a map: unspecified in
Go, so any rearrangement of the entries.  The first argument tells the
executions of the `range` statement apart. -/
structure MapRange where
  order : Nat → List (String × Int) → List (String × Int)
  perm : ∀ n m, (order n m).Perm m

/-- The map `sizeInfo` that `showTotalImageSize` builds from a manifest:
`for _, layer := range manifest.Layers { sizeInfo[layer.Digest] = layer.Size }`. -/
def sizeInfoOf (manifest : ImageManifest) : List (String × Int) :=
  (elems manifest.Layers).foldl (fun sizeInfo layer => mapSet sizeInfo layer.Digest layer.Size) []

/-- The loop `for _, size := range sizeInfo { totalSize += size }`, on the
entries in the order visited; `totalSize` is an `int64`. -/
def addSizes (entries : List (String × Int)) (totalSize : Int) : Int :=
  entries.foldl (fun total entry => wrap64 (total + entry.2)) totalSize

/-- The loop over `tags` of `showTotalImageSize`, from a running
`totalSize`: the error that ends it or the final `totalSize`, the calls made
and the final state. -/
def sizeLoop {σ : Type} (C : Client σ) (M : MapRange) (r : Registry) (imgName : String) :
    List String → Int → σ → Except String Int × List Event × σ
  | [], totalSize, s => (.ok totalSize, [], s)
  | tag :: rest, totalSize, s =>
    match C.ImageManifest r imgName tag s with
    | ((_, some err), s1) => (.error err, [⟨.ImageManifest imgName tag, some err⟩], s1)
    | ((manifest, none), s1) =>
      let sizeInfo := sizeInfoOf manifest
      let totalSize := addSizes (M.order rest.length sizeInfo) totalSize
      match sizeLoop C M r imgName rest totalSize s1 with
      | (res, evs, s2) => (res, ⟨.ImageManifest imgName tag, none⟩ :: evs, s2)

/-- Go `func showTotalImageSize(c *cli.Context) error`. -/
def showTotalImageSize {σ : Type} (C : Client σ) (M : MapRange) (c : Context) (s : σ) :
    Result σ :=
  let imgName := c.name
  let totalSize : Int := 0
  if imgName == "" then
    { ret := .nil, out := [.help], calls := [], state := s }
  else
    match C.NewRegistry s with
    | (_, some err) => { ret := .exitError err 1, out := [], calls := [], state := s }
    | (r, none) =>
      match C.ListTagsByImage r imgName s with
      | ((_, some err), s1) =>
        { ret := .exitError err 1, out := [],
          calls := [⟨.ListTagsByImage imgName, some err⟩], state := s1 }
      | ((tags, none), s1) =>
        let ev : Event := ⟨.ListTagsByImage imgName, none⟩
        match sizeLoop C M r imgName (elems tags) totalSize s1 with
        | (.error err, evs, s2) =>
          { ret := .exitError err 1, out := [], calls := ev :: evs, state := s2 }
        | (.ok totalSize, evs, s2) =>
          { ret := .nil, out := [.printf "%d %s\n" [.int totalSize, .str imgName]],
            calls := ev :: evs, state := s2 }

/-! ## Definitions the statements use -/

/-- The tag deletions a run attempted: the arguments of its calls of
`DeleteImageByTag`, in order. -/
def deletions (calls : List Event) : List (String × String) :=
  calls.filterMap fun e =>
    match e.call with
    | .DeleteImageByTag image tag => some (image, tag)
    | _ => none

/-- The client `C` with a journal: the state carries, next to the state of
`C`, every call the registry received, in order, with the error it
returned.  The answers and the state of `C` are those of `C`. -/
def Client.journaled {σ : Type} (C : Client σ) : Client (σ × List Event) where
  NewRegistry := fun s => C.NewRegistry s.1
  ListImages := fun r s =>
    ((C.ListImages r s.1).1,
      ((C.ListImages r s.1).2, s.2 ++ [⟨.ListImages, (C.ListImages r s.1).1.2⟩]))
  ListTagsByImage := fun r image s =>
    ((C.ListTagsByImage r image s.1).1,
      ((C.ListTagsByImage r image s.1).2,
        s.2 ++ [⟨.ListTagsByImage image, (C.ListTagsByImage r image s.1).1.2⟩]))
  ImageManifest := fun r image tag s =>
    ((C.ImageManifest r image tag s.1).1,
      ((C.ImageManifest r image tag s.1).2,
        s.2 ++ [⟨.ImageManifest image tag, (C.ImageManifest r image tag s.1).1.2⟩]))
  GetImageDate := fun r image tag s =>
    ((C.GetImageDate r image tag s.1).1,
      ((C.GetImageDate r image tag s.1).2,
        s.2 ++ [⟨.GetImageDate image tag, (C.GetImageDate r image tag s.1).1.2⟩]))
  DeleteImageByTag := fun r image tag s =>
    ((C.DeleteImageByTag r image tag s.1).1,
      ((C.DeleteImageByTag r image tag s.1).2,
        s.2 ++ [⟨.DeleteImageByTag image tag, (C.DeleteImageByTag r image tag s.1).1⟩]))

/-- The tags in server order, each with the date its fetch returns. -/
def datedTags (dateOf : String → Time) (tags : List String) : tagsAndDate :=
  tags.map (fun tag => { Tag := tag, Date := dateOf tag })

/-- The first `N - keep` entries of the date-sorted sequence of the N tags. -/
def oldestTags (S : SortImpl) (dateOf : String → Time) (tags : List String) (keep : Int) :
    tagsAndDate :=
  (S.sort (datedTags dateOf tags)).take (tags.length - keep.toNat)

/-- The entries of the date-sorted sequence after the first `N - keep`. -/
def keptTags (S : SortImpl) (dateOf : String → Time) (tags : List String) (keep : Int) :
    tagsAndDate :=
  (S.sort (datedTags dateOf tags)).drop (tags.length - keep.toNat)

/-- After the claim's words: the size recorded for digest `d` in a manifest's
layers, that of the last layer with that digest (0 when there is none). -/
def lastSize (layers : List layerInfo) (d : String) : Int :=
  match layers.reverse.find? (fun layer => layer.Digest = d) with
  | some layer => layer.Size
  | none => 0

/-- After the claim's words: the sum over the distinct layer digests of a
manifest of the size recorded for that digest. -/
def dedupSize (manifest : ImageManifest) : Int :=
  ∑ d ∈ ((elems manifest.Layers).map (·.Digest)).toFinset, lastSize (elems manifest.Layers) d

/-- After the claim's words: the sum over the tags of the per-tag
de-duplicated sums, `manifestOf tag` being the tag's manifest. -/
def specTotal (manifestOf : String → ImageManifest) (tags : List String) : Int :=
  (tags.map (fun tag => dedupSize (manifestOf tag))).sum

/-- The request every method of `Registry` hands to `client.Do`: the method
and URL, the basic-auth credentials and the `Accept` header. -/
def Registry.request (r : Registry) (method url : String) : Request :=
  { Method := method, URL := url, BasicAuth := some (r.Username, r.Password),
    Header := [("Accept", acceptHeader)] }

/-! ## Examples: `range` orders, tags and a registry server -/

/-- The `range` order that visits a map's entries as `mapSet` keeps them. -/
def insertionOrder : MapRange where
  order := fun _ m => m
  perm := fun _ m => List.Perm.refl m

/-- The `range` order that visits them in reverse. -/
def reverseOrder : MapRange where
  order := fun _ m => m.reverse
  perm := fun _ m => List.reverse_perm m

/-- Seven tags in server order, the first six of one date and the last one
older. -/
def sevenTags : tagsAndDate :=
  [⟨"a", ⟨5⟩⟩, ⟨"b", ⟨5⟩⟩, ⟨"c", ⟨5⟩⟩, ⟨"d", ⟨5⟩⟩, ⟨"e", ⟨5⟩⟩, ⟨"f", ⟨5⟩⟩, ⟨"g", ⟨1⟩⟩]

/-- A registry server holding one image `img`: its tags in server order, each
with the instant of its `Last-Modified` header and the layers of its
manifest, the status it answers the catalog and a tag listing with and the
status it answers a `DELETE` with. -/
structure Fake where
  tags : List (String × Int × List layerInfo)
  listStatus : Int
  deleteStatus : Int

/-- The credentials of the examples. -/
def fakeRegistry : Registry :=
  { Host := "http://nexus", Username := "user", Password := "secret", Repository := "docker" }

/-- The library and network of the examples: every request is well formed
and delivered; a manifest `GET` of a known tag answers 200 with the tag as
`Last-Modified` text and body and `sha256:` followed by the tag as digest,
of an unknown one 404. -/
def Fake.net (f : Fake) : Net Unit where
  requestError := fun _ _ => none
  Do := fun req s =>
    if req.Method = "DELETE" then
      (.ok { StatusCode := f.deleteStatus, HeaderGet := fun _ => "", Body := "" }, s)
    else if req.URL = "http://nexus/repository/docker/v2/img/tags/list" ∨
        req.URL = "http://nexus/repository/docker/v2/_catalog" then
      (.ok { StatusCode := f.listStatus, HeaderGet := fun _ => "", Body := "" }, s)
    else
      match f.tags.find? (fun t => req.URL = fakeRegistry.manifestURL "img" t.1) with
      | some t =>
        (.ok { StatusCode := 200, Body := t.1,
               HeaderGet := fun key =>
                 if key = "last-modified" then t.1
                 else if key = "docker-content-digest" then "sha256:" ++ t.1 else "" }, s)
      | none => (.ok { StatusCode := 404, HeaderGet := fun _ => "", Body := "" }, s)
  Now := fun _ => ⟨0⟩
  parseRFC1123 := fun text =>
    match f.tags.find? (fun t => t.1 = text) with
    | some t => .ok ⟨t.2.1⟩
    | none => .error "parsing time"
  decodeRepositories := fun _ => ⟨some ["img"]⟩
  decodeImageTags := fun _ => ⟨"img", some (f.tags.map (·.1))⟩
  decodeImageManifest := fun body =>
    match f.tags.find? (fun t => t.1 = body) with
    | some t => { ImageManifest.zero with Layers := some t.2.2 }
    | none => ImageManifest.zero
  Stat := fun _ _ => none
  DecodeFile := fun _ _ => (fakeRegistry, none)

/-- A hexadecimal digit, Go `ishex`. -/
def ishex (c : Char) : Bool :=
  ('0' ≤ c && c ≤ '9') || ('a' ≤ c && c ≤ 'f') || ('A' ≤ c && c ≤ 'F')

/-- Whether a text holds a `%` that two hexadecimal digits do not follow:
Go `url.Parse`, which `http.NewRequest` calls, rejects such a path with
`invalid URL escape`. -/
def badEscape : List Char → Bool
  | [] => false
  | c :: rest =>
    if c = '%' then
      match rest with
      | a :: b :: rest2 => !(ishex a && ishex b) || badEscape rest2
      | _ => true
    else badEscape rest

/-- The server of the examples behind an `http.NewRequest` that rejects a URL
with an invalid escape. -/
def Fake.strictNet (f : Fake) : Net Unit :=
  { f.net with
    requestError := fun _ url =>
      if badEscape url.toList then some ("parse " ++ url ++ ": invalid URL escape")
      else none }

/-- The state a command starts in: nothing sent, nothing printed. -/
def World.start : World Unit := { net := (), sent := [], stdout := [] }

/-- Three tags, listed newest first. -/
def threeTags : Fake :=
  { tags := [("v3", 30, []), ("v1", 10, []), ("v2", 20, [])], listStatus := 200,
    deleteStatus := 202 }

/-- The three tags on a server that answers every `DELETE` with 500. -/
def threeTagsDeleteFails : Fake :=
  { tags := [("v3", 30, []), ("v1", 10, []), ("v2", 20, [])], listStatus := 200,
    deleteStatus := 500 }

/-- The three tags on a server that answers the tag listing with 404. -/
def threeTagsListFails : Fake :=
  { tags := [("v3", 30, []), ("v1", 10, []), ("v2", 20, [])], listStatus := 404,
    deleteStatus := 202 }

/-- Two tags, the second with a name whose manifest URL `http.NewRequest`
rejects, so that its date fetch fails (served by `Fake.strictNet`). -/
def unfetchableTag : Fake :=
  { tags := [("v1", 10, []), ("%zz", 20, [])], listStatus := 200, deleteStatus := 202 }

/-- The seven tags of `sevenTags` on a server. -/
def sevenTagsServer : Fake :=
  { tags := [("a", 5, []), ("b", 5, []), ("c", 5, []), ("d", 5, []), ("e", 5, []),
      ("f", 5, []), ("g", 1, [])],
    listStatus := 200, deleteStatus := 202 }

/-- One tag whose manifest has layers of sizes 10, 20, 10, the two of size 10
under one digest. -/
def repeatedLayer : Fake :=
  { tags := [("latest", 1, [⟨"layer", 10, "sha256:a"⟩, ⟨"layer", 20, "sha256:b"⟩,
      ⟨"layer", 10, "sha256:a"⟩])],
    listStatus := 200, deleteStatus := 202 }

/-- Two tags, each with a layer of size 5 of its own and the layer `X` of
size 100. -/
def sharedLayer : Fake :=
  { tags := [("v1", 1, [⟨"layer", 5, "sha256:1"⟩, ⟨"layer", 100, "X"⟩]),
             ("v2", 2, [⟨"layer", 5, "sha256:2"⟩, ⟨"layer", 100, "X"⟩])],
    listStatus := 200, deleteStatus := 202 }

/-- One tag whose manifest has two layers of `2^62` bytes each. -/
def hugeLayers : Fake :=
  { tags := [("latest", 1, [⟨"layer", 4611686018427387904, "sha256:a"⟩,
      ⟨"layer", 4611686018427387904, "sha256:b"⟩])],
    listStatus := 200, deleteStatus := 202 }

/-! ## Lemmas: `Swap`, `Less` and `sort.Sort` -/

theorem cons_set_perm {α : Type} (a b : α) :
    ∀ (xs : List α) (j : Nat), xs[j]? = some b → (b :: xs.set j a).Perm (a :: xs)
  | [], j, h => by simp at h
  | y :: ys, 0, h => by
    simp only [List.getElem?_cons_zero, Option.some.injEq] at h
    subst h
    simpa using List.Perm.swap a y ys
  | y :: ys, j + 1, h => by
    simp only [List.getElem?_cons_succ] at h
    have ih := cons_set_perm a b ys j h
    calc (b :: (y :: ys).set (j + 1) a).Perm (y :: b :: ys.set j a) := by
          simpa using List.Perm.swap y b (ys.set j a)
      _ |>.Perm (y :: a :: ys) := ih.cons y
      _ |>.Perm (a :: y :: ys) := List.Perm.swap a y ys

theorem set_set_swap_perm {α : Type} (a b : α) :
    ∀ (p : List α) (i j : Nat), p[i]? = some a → p[j]? = some b →
      ((p.set i b).set j a).Perm p
  | [], i, _, hi, _ => by simp at hi
  | x :: xs, 0, 0, hi, hj => by
    simp only [List.getElem?_cons_zero, Option.some.injEq] at hi hj
    subst hi
    simp
  | x :: xs, 0, j + 1, hi, hj => by
    simp only [List.getElem?_cons_zero, Option.some.injEq] at hi
    simp only [List.getElem?_cons_succ] at hj
    subst hi
    simpa using cons_set_perm x b xs j hj
  | x :: xs, i + 1, 0, hi, hj => by
    simp only [List.getElem?_cons_zero, Option.some.injEq] at hj
    simp only [List.getElem?_cons_succ] at hi
    subst hj
    simpa using cons_set_perm x a xs i hi
  | x :: xs, i + 1, j + 1, hi, hj => by
    simp only [List.getElem?_cons_succ] at hi hj
    simpa using (set_set_swap_perm a b xs i j hi hj).cons x

theorem Swap_perm (p : tagsAndDate) (i j : Nat) : (p.Swap i j).Perm p := by
  unfold tagsAndDate.Swap
  split
  · next a b hi hj => exact set_set_swap_perm a b p i j hi hj
  · exact List.Perm.refl p

theorem swapReach_perm {p q : tagsAndDate} (h : SwapReach p q) : q.Perm p := by
  induction h with
  | refl p => exact List.Perm.refl p
  | step i j _ _ _ ih => exact ih.trans (Swap_perm _ i j)

theorem swapReach_trans {p q t : tagsAndDate} (h₁ : SwapReach p q) (h₂ : SwapReach q t) :
    SwapReach p t := by
  induction h₁ with
  | refl p => exact h₂
  | step i j hi hj _ ih => exact SwapReach.step i j hi hj (ih h₂)

theorem Swap_cons_succ (x : tagDate) (p : tagsAndDate) (i j : Nat) :
    tagsAndDate.Swap (x :: p) (i + 1) (j + 1) = x :: p.Swap i j := by
  unfold tagsAndDate.Swap
  simp only [List.getElem?_cons_succ]
  cases p[i]? <;> cases p[j]? <;> simp

theorem swapReach_cons (x : tagDate) {p q : tagsAndDate} (h : SwapReach p q) :
    SwapReach (x :: p) (x :: q) := by
  induction h with
  | refl p => exact SwapReach.refl _
  | step i j hi hj _ ih =>
    refine SwapReach.step (i + 1) (j + 1) ?_ ?_ ?_
    · simpa [tagsAndDate.Len] using hi
    · simpa [tagsAndDate.Len] using hj
    · rw [Swap_cons_succ]; exact ih

/-- Every rearrangement of `p` is reached from `p` by swaps. -/
theorem swapReach_of_perm {p q : tagsAndDate} (h : p.Perm q) : SwapReach p q := by
  induction h with
  | nil => exact SwapReach.refl _
  | cons x _ ih => exact swapReach_cons x ih
  | swap x y l =>
    refine SwapReach.step 0 1 ?_ ?_ ?_
    · simp [tagsAndDate.Len]
    · simp [tagsAndDate.Len]
    · have : tagsAndDate.Swap (y :: x :: l) 0 1 = x :: y :: l := by
        simp [tagsAndDate.Swap]
      rw [this]; exact SwapReach.refl _
  | trans _ _ ih₁ ih₂ => exact swapReach_trans ih₁ ih₂

theorem sortImpl_perm (S : SortImpl) (p : tagsAndDate) : (S.sort p).Perm p :=
  swapReach_perm (S.by_swaps p)

theorem Less_eq_false_iff (p : tagsAndDate) (i j : Nat) (hi : i < p.length)
    (hj : j < p.length) : p.Less j i = false ↔ p[i].Date ≤ p[j].Date := by
  unfold tagsAndDate.Less
  rw [List.getElem?_eq_getElem hi, List.getElem?_eq_getElem hj]
  simp only [Time.Before, decide_eq_false_iff_not, not_lt]
  exact Iff.rfl

/-- On return from `sort.Sort` every earlier entry's date is at most every
later entry's date. -/
theorem sortImpl_pairwise (S : SortImpl) (p : tagsAndDate) :
    (S.sort p).Pairwise dateLE := by
  rw [List.pairwise_iff_getElem]
  intro i j hi hj hij
  exact (Less_eq_false_iff (S.sort p) i j hi hj).1 (S.ascending p i j hij hj)

theorem shellPass_reach : ∀ (fuel i : Nat) (p : tagsAndDate), SwapReach p (shellPass fuel i p)
  | 0, _, p => SwapReach.refl p
  | fuel + 1, i, p => by
    unfold shellPass
    split
    · next hi =>
      split
      · exact SwapReach.step i (i - 6) hi (by omega) (shellPass_reach fuel (i + 1) _)
      · exact shellPass_reach fuel (i + 1) p
    · exact SwapReach.refl p

theorem insertionSort_ascending (q : tagsAndDate) (i j : Nat) (hij : i < j)
    (hj : j < tagsAndDate.Len (List.insertionSort dateLE q)) :
    tagsAndDate.Less (List.insertionSort dateLE q) j i = false := by
  have hs : (List.insertionSort dateLE q).Pairwise dateLE := List.sorted_insertionSort dateLE q
  rw [List.pairwise_iff_getElem] at hs
  have hj' : j < (List.insertionSort dateLE q).length := hj
  exact (Less_eq_false_iff _ i j (by omega) hj').2 (hs i j (by omega) hj' hij)

/-- A stable `sort.Sort`: insertion sort, which is what Go 1.19 and later run
on a slice of at most 12 elements. -/
def stableSort : SortImpl where
  sort := List.insertionSort dateLE
  by_swaps := fun p => swapReach_of_perm (List.perm_insertionSort dateLE p).symm
  ascending := fun p i j hij hj => insertionSort_ascending p i j hij hj

/-- The `sort.Sort` of Go 1.7 to 1.18 on a slice of at most 12 elements (on a
longer slice Go partitions first; this is then still a sort meeting the
contract). -/
def legacySort : SortImpl where
  sort := legacySortFn
  by_swaps := fun p =>
    swapReach_trans (shellPass_reach (p.Len - 6) 6 p)
      (swapReach_of_perm (List.perm_insertionSort dateLE _).symm)
  ascending := fun _ i j hij hj => insertionSort_ascending _ i j hij hj

/-! ## Lemmas: the loops of `deleteImage` -/

theorem deletions_append (xs ys : List Event) :
    deletions (xs ++ ys) = deletions xs ++ deletions ys := by
  simp [deletions, List.filterMap_append]

theorem sliceTo_retention {α : Type} (l : List α) (n : Nat) (keep : Int) (h0 : 0 < keep)
    (h : ¬ (n : Int) ≤ keep) :
    sliceTo l n ((n : Int) - keep) = some (l.take (n - keep.toNat)) := by
  unfold sliceTo
  have h1 : (0 : Int) ≤ (n : Int) - keep ∧ (n : Int) - keep ≤ (n : Int) := by omega
  rw [if_pos h1]
  congr 2
  omega

/-- With `keep = 0` and no tag `deleteImage` leaves the state as it found it. -/
theorem deleteImage_keep_zero_state {σ : Type} (C : Client σ) (S : SortImpl) (c : Context)
    (s : σ) (r : Registry)
    (hname : c.name ≠ "") (htag : c.tag = "") (hreg : C.NewRegistry s = (r, none))
    (h0 : c.keep = 0) : (deleteImage C S c s).state = s := by
  unfold deleteImage
  simp only [hname, htag, hreg, h0, beq_iff_eq, if_false, if_true]

/-- The retention path of `deleteImage` when at most `keep` tags exist: the
final state is the one the listing left. -/
theorem deleteImage_retention_few_state {σ : Type} (C : Client σ) (S : SortImpl)
    (c : Context) (s s1 : σ) (r : Registry) (tags : Option (List String))
    (hname : c.name ≠ "") (htag : c.tag = "") (hkeep : 0 < c.keep)
    (hreg : C.NewRegistry s = (r, none))
    (hlist : C.ListTagsByImage r c.name s = ((tags, none), s1))
    (hfew : len tags ≤ c.keep) : (deleteImage C S c s).state = s1 := by
  have hk : c.keep ≠ 0 := by omega
  unfold deleteImage
  simp only [hname, htag, hreg, hlist, hk, hfew, beq_iff_eq, if_false, if_true]

/-- The retention path of `deleteImage` when a date fetch fails: the final
state is the one the failed fetch left. -/
theorem deleteImage_retention_fetch_error_state {σ : Type} (C : Client σ) (S : SortImpl)
    (c : Context) (s s1 s2 : σ) (r : Registry) (tags : Option (List String)) (err : String)
    (evs : List Event)
    (hname : c.name ≠ "") (htag : c.tag = "") (hkeep : 0 < c.keep)
    (hreg : C.NewRegistry s = (r, none))
    (hlist : C.ListTagsByImage r c.name s = ((tags, none), s1))
    (hmore : ¬ len tags ≤ c.keep)
    (hfetch : fetchDates C r c.name (elems tags) s1 = (.error err, evs, s2)) :
    (deleteImage C S c s).state = s2 := by
  have hk : c.keep ≠ 0 := by omega
  unfold deleteImage
  simp only [hname, htag, hreg, hlist, hk, hmore, hfetch, beq_iff_eq, if_false, if_true]

/-- The retention path of `deleteImage` when more than `keep` tags exist and
every date is fetched: the final state is the one the delete loop leaves,
run on the first `N - keep` sorted entries from the state after the fetches. -/
theorem deleteImage_retention_run_state {σ : Type} (C : Client σ) (S : SortImpl)
    (c : Context) (s s1 s2 : σ) (r : Registry) (tags : Option (List String))
    (dated : tagsAndDate) (evs : List Event)
    (hname : c.name ≠ "") (htag : c.tag = "") (hkeep : 0 < c.keep)
    (hreg : C.NewRegistry s = (r, none))
    (hlist : C.ListTagsByImage r c.name s = ((tags, none), s1))
    (hmore : ¬ len tags ≤ c.keep)
    (hfetch : fetchDates C r c.name (elems tags) s1 = (.ok dated, evs, s2)) :
    (deleteImage C S c s).state =
      (deleteLoop C r c.name ((S.sort dated).take ((elems tags).length - c.keep.toNat))
        s2).2.2 := by
  have hk : c.keep ≠ 0 := by omega
  have hsl := sliceTo_retention (S.sort dated) (elems tags).length c.keep hkeep hmore
  unfold deleteImage
  simp only [hname, htag, hreg, hlist, hk, hmore, hfetch, beq_iff_eq, if_false, if_true]
  unfold len
  rw [hsl]

theorem journaled_NewRegistry {σ : Type} (C : Client σ) (s : σ) (j : List Event)
    (r : Registry) (hreg : C.NewRegistry s = (r, none)) :
    C.journaled.NewRegistry (s, j) = (r, none) := hreg

theorem journaled_ListTagsByImage {σ : Type} (C : Client σ) (s s1 : σ) (r : Registry)
    (image : String) (tags : Option (List String))
    (hlist : C.ListTagsByImage r image s = ((tags, none), s1)) :
    C.journaled.ListTagsByImage r image (s, []) =
      ((tags, none), (s1, [⟨.ListTagsByImage image, none⟩])) := by
  simp [Client.journaled, hlist]

/-- On a journaled client whose date fetches succeed, the fetch loop returns
the tags with their dates and the journal grows by one successful
`GetImageDate` per tag, in order. -/
theorem fetchDates_journaled {σ : Type} (C : Client σ) (r : Registry) (imgName : String)
    (dateOf : String → Time) :
    ∀ (tags : List String) (s : σ) (j : List Event),
      (∀ tag ∈ tags, ∀ s2, (C.GetImageDate r imgName tag s2).1 = (dateOf tag, none)) →
      ∃ evs s3, fetchDates C.journaled r imgName tags (s, j) =
        (.ok (datedTags dateOf tags), evs,
          (s3, j ++ tags.map (fun tag => ⟨.GetImageDate imgName tag, none⟩)))
  | [], s, j, _ => ⟨[], s, by simp [fetchDates, datedTags]⟩
  | tag :: rest, s, j, hdate => by
    have h1 := hdate tag (List.mem_cons_self _ _) s
    obtain ⟨evs, s3, ih⟩ := fetchDates_journaled C r imgName dateOf rest
      (C.GetImageDate r imgName tag s).2
      (j ++ [⟨.GetImageDate imgName tag, none⟩])
      (fun t ht => hdate t (List.mem_cons_of_mem _ ht))
    refine ⟨⟨.GetImageDate imgName tag, none⟩ :: evs, s3, ?_⟩
    have hJ : C.journaled.GetImageDate r imgName tag (s, j) =
        ((dateOf tag, none), ((C.GetImageDate r imgName tag s).2,
          j ++ [⟨.GetImageDate imgName tag, none⟩])) := by
      simp [Client.journaled, h1]
    simp only [fetchDates, hJ, ih, datedTags, List.map_cons, List.append_assoc,
      List.singleton_append]

/-- On a journaled client with a tag whose date fetch fails, the fetch loop
ends with an error and the journal holds no deletion it did not hold before. -/
theorem fetchDates_journaled_error {σ : Type} (C : Client σ) (r : Registry)
    (imgName : String) :
    ∀ (tags : List String) (s : σ) (j : List Event),
      (∃ tag ∈ tags, ∀ s2, (C.GetImageDate r imgName tag s2).1.2 ≠ none) →
      ∃ err evs s3 j3, fetchDates C.journaled r imgName tags (s, j) =
        (.error err, evs, (s3, j3)) ∧ deletions j3 = deletions j
  | [], s, j, h => by
    obtain ⟨tag, hmem, _⟩ := h
    simp at hmem
  | tag :: rest, s, j, h => by
    rcases hC : C.GetImageDate r imgName tag s with ⟨⟨date, e⟩, s1⟩
    have hJ : C.journaled.GetImageDate r imgName tag (s, j) =
        ((date, e), (s1, j ++ [⟨.GetImageDate imgName tag, e⟩])) := by
      simp [Client.journaled, hC]
    cases e with
    | some err =>
      refine ⟨err, [⟨.GetImageDate imgName tag, some err⟩], s1,
        j ++ [⟨.GetImageDate imgName tag, some err⟩], ?_, ?_⟩
      · simp only [fetchDates, hJ]
      · rw [deletions_append]; simp [deletions]
    | none =>
      have hrest : ∃ t ∈ rest, ∀ s2, (C.GetImageDate r imgName t s2).1.2 ≠ none := by
        obtain ⟨t, hmem, hfail⟩ := h
        rcases List.mem_cons.1 hmem with ht | ht
        · subst ht
          have := hfail s
          rw [hC] at this
          exact absurd rfl this
        · exact ⟨t, ht, hfail⟩
      obtain ⟨err, evs, s3, j3, ih, hd⟩ := fetchDates_journaled_error C r imgName rest s1
        (j ++ [⟨.GetImageDate imgName tag, none⟩]) hrest
      refine ⟨err, ⟨.GetImageDate imgName tag, none⟩ :: evs, s3, j3, ?_, ?_⟩
      · simp only [fetchDates, hJ, ih]
      · rw [hd, deletions_append]; simp [deletions]

/-- On a journaled client the delete loop adds to the journal one
`DeleteImageByTag` per entry, in order, whatever the calls return. -/
theorem deleteLoop_journaled_calls {σ : Type} (C : Client σ) (r : Registry)
    (imgName : String) :
    ∀ (l : tagsAndDate) (s : σ) (j : List Event),
      ((deleteLoop C.journaled r imgName l (s, j)).2.2.2).map (·.call) =
        j.map (·.call) ++ l.map (fun t => Call.DeleteImageByTag imgName t.Tag)
  | [], s, j => by simp [deleteLoop]
  | tag :: rest, s, j => by
    have ih := deleteLoop_journaled_calls C r imgName rest
      (C.DeleteImageByTag r imgName tag.Tag s).2
      (j ++ [⟨.DeleteImageByTag imgName tag.Tag, (C.DeleteImageByTag r imgName tag.Tag s).1⟩])
    simp only [deleteLoop, Client.journaled] at ih ⊢
    rw [ih]
    simp

/-- On a journaled client whose deletions succeed the delete loop adds to
the journal one successful `DeleteImageByTag` per entry, in order. -/
theorem deleteLoop_journaled_ok {σ : Type} (C : Client σ) (r : Registry)
    (imgName : String) :
    ∀ (l : tagsAndDate) (s : σ) (j : List Event),
      (∀ t ∈ l, ∀ s2, (C.DeleteImageByTag r imgName t.Tag s2).1 = none) →
      (deleteLoop C.journaled r imgName l (s, j)).2.2.2 =
        j ++ l.map (fun t => ⟨.DeleteImageByTag imgName t.Tag, none⟩)
  | [], s, j, _ => by simp [deleteLoop]
  | tag :: rest, s, j, hdel => by
    have h1 := hdel tag (List.mem_cons_self _ _) s
    have ih := deleteLoop_journaled_ok C r imgName rest
      (C.DeleteImageByTag r imgName tag.Tag s).2
      (j ++ [⟨.DeleteImageByTag imgName tag.Tag, none⟩])
      (fun t ht => hdel t (List.mem_cons_of_mem _ ht))
    simp only [deleteLoop, Client.journaled, h1] at ih ⊢
    rw [ih]
    simp

theorem datedTags_tags (dateOf : String → Time) (tags : List String) :
    (datedTags dateOf tags).map (·.Tag) = tags := by
  simp [datedTags, Function.comp_def]

theorem oldestTags_append_keptTags (S : SortImpl) (dateOf : String → Time)
    (tags : List String) (keep : Int) :
    oldestTags S dateOf tags keep ++ keptTags S dateOf tags keep =
      S.sort (datedTags dateOf tags) := by
  simp [oldestTags, keptTags]

theorem sort_datedTags_length (S : SortImpl) (dateOf : String → Time) (tags : List String) :
    (S.sort (datedTags dateOf tags)).length = tags.length := by
  rw [(sortImpl_perm S _).length_eq]
  simp [datedTags]

theorem mem_oldestTags_tag (S : SortImpl) (dateOf : String → Time) (tags : List String)
    (keep : Int) (t : tagDate) (h : t ∈ oldestTags S dateOf tags keep) : t.Tag ∈ tags := by
  have h1 : t ∈ S.sort (datedTags dateOf tags) := List.mem_of_mem_take h
  have h2 : t ∈ datedTags dateOf tags := (sortImpl_perm S _).mem_iff.1 h1
  rw [← datedTags_tags dateOf tags]
  exact List.mem_map_of_mem _ h2

theorem deletions_of_calls (j : List Event) :
    deletions j = (j.map (·.call)).filterMap (fun call =>
      match call with
      | .DeleteImageByTag image tag => some (image, tag)
      | _ => none) := by
  simp [deletions, List.filterMap_map, Function.comp_def]

/-- The retention path on a journaled client when more than `keep` tags
exist and every date fetch succeeds: the final state is the one the delete
loop leaves, run on the oldest tags from a journal that holds the listing and
one successful date fetch per tag. -/
theorem deleteImage_journaled_run {σ : Type} (C : Client σ) (S : SortImpl) (c : Context)
    (s s1 : σ) (r : Registry) (tags : Option (List String)) (dateOf : String → Time)
    (hname : c.name ≠ "") (htag : c.tag = "") (hkeep : 0 < c.keep)
    (hreg : C.NewRegistry s = (r, none))
    (hlist : C.ListTagsByImage r c.name s = ((tags, none), s1))
    (hmore : ¬ len tags ≤ c.keep)
    (hdate : ∀ tag ∈ elems tags, ∀ s2,
      (C.GetImageDate r c.name tag s2).1 = (dateOf tag, none)) :
    ∃ s3, (deleteImage C.journaled S c (s, [])).state =
      (deleteLoop C.journaled r c.name (oldestTags S dateOf (elems tags) c.keep)
        (s3, ⟨.ListTagsByImage c.name, none⟩ ::
          (elems tags).map (fun tag => ⟨.GetImageDate c.name tag, none⟩))).2.2 := by
  obtain ⟨evs, s3, hf⟩ := fetchDates_journaled C r c.name dateOf (elems tags) s1
    [⟨.ListTagsByImage c.name, none⟩] hdate
  exact ⟨s3, deleteImage_retention_run_state C.journaled S c (s, []) _ _ r tags _ evs
    hname htag hkeep (journaled_NewRegistry C s [] r hreg)
    (journaled_ListTagsByImage C s s1 r c.name tags hlist) hmore hf⟩

theorem deletions_listing_fetches (imgName : String) (tags : List String) :
    deletions (⟨.ListTagsByImage imgName, none⟩ ::
      tags.map (fun tag => (⟨.GetImageDate imgName tag, none⟩ : Event))) = [] := by
  induction tags with
  | nil => simp [deletions]
  | cons tag rest ih => simp [deletions]

theorem deletions_delete_events (imgName : String) (l : tagsAndDate) :
    deletions (l.map (fun t => (⟨.DeleteImageByTag imgName t.Tag, none⟩ : Event))) =
      l.map (fun t => (imgName, t.Tag)) := by
  induction l with
  | nil => simp [deletions]
  | cons t rest ih => simp [deletions] at ih ⊢; exact ih

theorem oldestTags_length (S : SortImpl) (dateOf : String → Time) (tags : List String)
    (keep : Int) : (oldestTags S dateOf tags keep).length = tags.length - keep.toNat := by
  rw [oldestTags, List.length_take, sort_datedTags_length]
  omega

/-! ## Lemmas: the total size -/

theorem wrap64_add_wrap64 (a b : Int) : wrap64 (wrap64 a + b) = wrap64 (a + b) := by
  unfold wrap64
  norm_num
  omega

theorem wrap64_wrap64 (a : Int) : wrap64 (wrap64 a) = wrap64 a := by
  simpa using wrap64_add_wrap64 a 0

theorem wrap64_of_fits (a : Int) (h : -2 ^ 63 ≤ a ∧ a < 2 ^ 63) : wrap64 a = a := by
  unfold wrap64
  norm_num at h ⊢
  omega

theorem addSizes_eq : ∀ (entries : List (String × Int)) (total : Int), wrap64 total = total →
    addSizes entries total = wrap64 (total + (entries.map (·.2)).sum)
  | [], total, h => by simp [addSizes, h]
  | e :: es, total, _ => by
    have ih := addSizes_eq es (wrap64 (total + e.2)) (wrap64_wrap64 _)
    simp only [addSizes, List.foldl_cons] at ih ⊢
    rw [ih, wrap64_add_wrap64, List.map_cons, List.sum_cons, add_assoc]

theorem mapSet_keys : ∀ (m : List (String × Int)) (key : String) (value : Int),
    (mapSet m key value).map Prod.fst =
      if key ∈ m.map Prod.fst then m.map Prod.fst else m.map Prod.fst ++ [key]
  | [], key, value => by simp [mapSet]
  | (k, v) :: rest, key, value => by
    unfold mapSet
    by_cases hk : k = key
    · simp [hk]
    · have hk' : ¬ key = k := fun h => hk h.symm
      simp only [hk, if_false, List.map_cons, List.mem_cons, hk', false_or,
        mapSet_keys rest key value]
      split <;> simp

theorem mapSet_mem : ∀ (m : List (String × Int)), (m.map Prod.fst).Nodup →
    ∀ (key : String) (value : Int) (e : String × Int), e ∈ mapSet m key value →
      e = (key, value) ∨ (e.1 ≠ key ∧ e ∈ m)
  | [], _, key, value, e, he => by
    simp only [mapSet, List.mem_singleton] at he
    exact Or.inl he
  | (k, v) :: rest, hn, key, value, e, he => by
    simp only [List.map_cons, List.nodup_cons] at hn
    unfold mapSet at he
    by_cases hk : k = key
    · simp only [hk, if_true, List.mem_cons] at he
      rcases he with he | he
      · exact Or.inl he
      · refine Or.inr ⟨?_, List.mem_cons_of_mem _ he⟩
        intro h1
        exact hn.1 (hk ▸ h1 ▸ List.mem_map_of_mem Prod.fst he)
    · simp only [hk, if_false, List.mem_cons] at he
      rcases he with he | he
      · refine Or.inr ⟨?_, ?_⟩
        · rw [he]; exact hk
        · rw [he]; exact List.mem_cons_self _ _
      · rcases mapSet_mem rest hn.2 key value e he with h | h
        · exact Or.inl h
        · exact Or.inr ⟨h.1, List.mem_cons_of_mem _ h.2⟩

theorem lastSize_concat (layers : List layerInfo) (layer : layerInfo) (d : String) :
    lastSize (layers ++ [layer]) d =
      if layer.Digest = d then layer.Size else lastSize layers d := by
  unfold lastSize
  rw [List.reverse_append]
  simp only [List.reverse_cons, List.reverse_nil, List.nil_append, List.singleton_append,
    List.find?_cons]
  by_cases h : layer.Digest = d <;> simp [h]

/-- The map built from the layers: its keys are distinct, they are the layers'
digests, and each entry holds the size of the last layer with its digest. -/
theorem sizeInfo_invariant (layers : List layerInfo) :
    ((layers.foldl (fun m l => mapSet m l.Digest l.Size) []).map Prod.fst).Nodup ∧
    (∀ d, d ∈ (layers.foldl (fun m l => mapSet m l.Digest l.Size) []).map Prod.fst ↔
      d ∈ layers.map (·.Digest)) ∧
    ∀ e ∈ layers.foldl (fun m l => mapSet m l.Digest l.Size) [], e.2 = lastSize layers e.1 := by
  induction layers using List.reverseRecOn with
  | nil => simp
  | append_singleton ls l ih =>
    obtain ⟨hn, hk, hv⟩ := ih
    simp only [List.foldl_append, List.foldl_cons, List.foldl_nil]
    generalize ls.foldl (fun m l => mapSet m l.Digest l.Size) [] = m at hn hk hv
    refine ⟨?_, ?_, ?_⟩
    · rw [mapSet_keys]
      split
      · exact hn
      · next hnot =>
        rw [List.nodup_append]
        refine ⟨hn, List.nodup_singleton _, ?_⟩
        intro a ha hb
        rw [List.mem_singleton] at hb
        exact hnot (hb ▸ ha)
    · intro d
      rw [mapSet_keys]
      split
      · next hin =>
        rw [hk d, List.map_append, List.mem_append]
        constructor
        · exact Or.inl
        · rintro (h | h)
          · exact h
          · simp only [List.map_cons, List.map_nil, List.mem_singleton] at h
            rw [h]; exact (hk _).1 hin
      · rw [List.mem_append, hk d, List.map_append, List.mem_append]
        simp
    · intro e he
      rw [lastSize_concat]
      rcases mapSet_mem m hn l.Digest l.Size e he with h | h
      · rw [h]; simp
      · rw [if_neg (fun h1 => h.1 h1.symm)]
        exact hv e h.2

theorem sizeInfoOf_sum (manifest : ImageManifest) :
    ((sizeInfoOf manifest).map (·.2)).sum = dedupSize manifest := by
  obtain ⟨hn, hk, hv⟩ := sizeInfo_invariant (elems manifest.Layers)
  unfold dedupSize sizeInfoOf
  generalize (elems manifest.Layers).foldl (fun m l => mapSet m l.Digest l.Size) [] = m
    at hn hk hv
  have hset : ((elems manifest.Layers).map (·.Digest)).toFinset = (m.map Prod.fst).toFinset := by
    ext d
    simp only [List.mem_toFinset]
    exact (hk d).symm
  rw [hset, List.sum_toFinset _ hn, List.map_map]
  congr 1
  apply List.map_congr_left
  intro e he
  exact hv e he

theorem sizeLoop_total {σ : Type} (C : Client σ) (M : MapRange) (r : Registry)
    (imgName : String) (manifestOf : String → ImageManifest) :
    ∀ (tags : List String) (total : Int) (s : σ),
      (∀ tag ∈ tags, ∀ s1, (C.ImageManifest r imgName tag s1).1 = (manifestOf tag, none)) →
      wrap64 total = total →
      (sizeLoop C M r imgName tags total s).1 =
        .ok (wrap64 (total + specTotal manifestOf tags))
  | [], total, s, _, ht => by simp [sizeLoop, specTotal, ht]
  | tag :: rest, total, s, hman, ht => by
    have h1 := hman tag (List.mem_cons_self _ _) s
    rcases hC : C.ImageManifest r imgName tag s with ⟨⟨manifest, err⟩, s1⟩
    rw [hC] at h1
    simp only [Prod.mk.injEq] at h1
    obtain ⟨hm, he⟩ := h1
    subst hm he
    have ih := sizeLoop_total C M r imgName manifestOf rest
      (addSizes (M.order rest.length (sizeInfoOf (manifestOf tag))) total) s1
      (fun t ht1 => hman t (List.mem_cons_of_mem _ ht1))
      (by rw [addSizes_eq _ _ ht]; exact wrap64_wrap64 _)
    simp only [sizeLoop, hC]
    rw [ih, addSizes_eq _ _ ht, wrap64_add_wrap64,
      ((M.perm rest.length (sizeInfoOf (manifestOf tag))).map (·.2)).sum_eq, sizeInfoOf_sum]
    simp [specTotal, add_assoc]

/-! ## Lemmas: the requests of `registry.go` -/

theorem NewRequest_ok {σ : Type} (N : Net σ) (method url : String)
    (h : N.requestError method url = none) :
    NewRequest N method url =
      .ok { Method := method, URL := url, BasicAuth := none, Header := [] } := by
  simp [NewRequest, h]

theorem request_built (r : Registry) (method url : String) :
    (({ Method := method, URL := url, BasicAuth := none, Header := [] } : Request).SetBasicAuth
      r.Username r.Password).HeaderAdd "Accept" acceptHeader = r.request method url := rfl

/-- What `getImageSHA` does once its request is built. -/
theorem getImageSHA_run {σ : Type} (N : Net σ) (r : Registry) (image tag : String)
    (w : World σ) (hget : N.requestError "GET" (r.manifestURL image tag) = none) :
    (r.getImageSHA N image tag w).2 =
      { w with net := (N.Do (r.request "GET" (r.manifestURL image tag)) w.net).2,
               sent := w.sent ++ [r.request "GET" (r.manifestURL image tag)] } ∧
    (r.getImageSHA N image tag w).1 =
      match (N.Do (r.request "GET" (r.manifestURL image tag)) w.net).1 with
      | .error err => ("", some err)
      | .ok resp =>
        if resp.StatusCode ≠ 200 then ("", some (httpCodeError resp.StatusCode))
        else (resp.HeaderGet "docker-content-digest", none) := by
  unfold Registry.getImageSHA
  simp only [NewRequest_ok N _ _ hget, request_built, clientDo]
  rcases N.Do (r.request "GET" (r.manifestURL image tag)) w.net with ⟨res, n1⟩
  cases res with
  | error err => exact ⟨rfl, rfl⟩
  | ok resp =>
    by_cases h : resp.StatusCode = 200
    · simp [h]
    · simp [h]

/-! ## The claims -/

/-- C1, counterexample: with `keep = 0` (and no tag) on an image of 3 tags
`deleteImage` sends no request and attempts no deletion, not
`max(0, 3 - 0) = 3`; and with `keep = 1` on an image of 2 tags of which the
second's date fetch fails it attempts no deletion, not `max(0, 2 - 1) = 1`. -/
theorem deleteImage_keep_zero_no_deletion :
    ((registryClient threeTags.net).ListTagsByImage fakeRegistry "img" World.start).1 =
      (some ["v3", "v1", "v2"], none) ∧
    (deleteImage (registryClient threeTags.net) stableSort
      ⟨"img", "", 0⟩ World.start).state.sent = [] ∧
    (deleteImage (registryClient threeTags.net).journaled stableSort
      ⟨"img", "", 0⟩ (World.start, [])).state.2 = [] ∧
    ((deletions (deleteImage (registryClient threeTags.net).journaled stableSort
      ⟨"img", "", 0⟩ (World.start, [])).state.2).length : Int) ≠ max 0 (3 - 0) ∧
    (deleteImage (registryClient unfetchableTag.strictNet).journaled stableSort
      ⟨"img", "", 1⟩ (World.start, [])).state.2.map (·.call) =
      [.ListTagsByImage "img", .GetImageDate "img" "v1", .GetImageDate "img" "%zz"] ∧
    ((deletions (deleteImage (registryClient unfetchableTag.strictNet).journaled stableSort
      ⟨"img", "", 1⟩ (World.start, [])).state.2).length : Int) ≠ max 0 (2 - 1) := by
  decide

/-- C1, amended: for an image whose listing gives N tags and `keep = K` with
no tag, the registry receives from `deleteImage` no call at all when K = 0,
and for K > 0 only the listing when N <= K, exactly `max(0, N-K)` calls of
`DeleteImageByTag` when every tag's date fetch and every deletion succeeds,
and no call of `DeleteImageByTag` when a tag's date fetch fails.  The calls
are read from the journal of the registry client, not from the command. -/
theorem deleteImage_retention_count {σ : Type} (C : Client σ) (S : SortImpl) (c : Context)
    (s s1 : σ) (r : Registry) (tags : Option (List String))
    (hname : c.name ≠ "") (htag : c.tag = "")
    (hreg : C.NewRegistry s = (r, none))
    (hlist : C.ListTagsByImage r c.name s = ((tags, none), s1)) :
    (c.keep = 0 → (deleteImage C.journaled S c (s, [])).state.2 = []) ∧
    (0 < c.keep → len tags ≤ c.keep →
      (deleteImage C.journaled S c (s, [])).state.2 = [⟨.ListTagsByImage c.name, none⟩]) ∧
    (0 < c.keep → ∀ dateOf : String → Time,
      (∀ tag ∈ elems tags, ∀ s2, (C.GetImageDate r c.name tag s2).1 = (dateOf tag, none)) →
      (∀ tag ∈ elems tags, ∀ s2, (C.DeleteImageByTag r c.name tag s2).1 = none) →
      ((deletions (deleteImage C.journaled S c (s, [])).state.2).length : Int) =
        max 0 (len tags - c.keep) ∧
      ∀ e ∈ (deleteImage C.journaled S c (s, [])).state.2, e.err = none) ∧
    (0 < c.keep → ¬ len tags ≤ c.keep →
      (∃ tag ∈ elems tags, ∀ s2, (C.GetImageDate r c.name tag s2).1.2 ≠ none) →
      deletions (deleteImage C.journaled S c (s, [])).state.2 = []) := by
  have hregJ := journaled_NewRegistry C s [] r hreg
  have hlistJ := journaled_ListTagsByImage C s s1 r c.name tags hlist
  have hfew : 0 < c.keep → len tags ≤ c.keep →
      (deleteImage C.journaled S c (s, [])).state.2 = [⟨.ListTagsByImage c.name, none⟩] := by
    intro hk hle
    rw [deleteImage_retention_few_state C.journaled S c (s, []) _ r tags hname htag hk hregJ
      hlistJ hle]
  refine ⟨?_, hfew, ?_, ?_⟩
  · intro h0
    rw [deleteImage_keep_zero_state C.journaled S c (s, []) r hname htag hregJ h0]
  · intro hk dateOf hdate hdel
    by_cases hle : len tags ≤ c.keep
    · rw [hfew hk hle]
      refine ⟨?_, ?_⟩
      · simp only [deletions, List.filterMap_cons, List.filterMap_nil, List.length_nil,
          Nat.cast_zero]
        omega
      · intro e he
        rw [List.mem_singleton] at he
        rw [he]
    · obtain ⟨s3, hrun⟩ := deleteImage_journaled_run C S c s s1 r tags dateOf hname htag hk
        hreg hlist hle hdate
      have hok := deleteLoop_journaled_ok C r c.name (oldestTags S dateOf (elems tags) c.keep)
        s3 (⟨.ListTagsByImage c.name, none⟩ ::
          (elems tags).map (fun tag => ⟨.GetImageDate c.name tag, none⟩))
        (fun t ht => hdel t.Tag (mem_oldestTags_tag S dateOf (elems tags) c.keep t ht))
      rw [hrun, hok]
      refine ⟨?_, ?_⟩
      · rw [deletions_append, deletions_listing_fetches, deletions_delete_events,
          List.nil_append, List.length_map, oldestTags_length]
        unfold len at hle ⊢
        omega
      · intro e he
        simp only [List.cons_append, List.mem_cons, List.mem_append, List.mem_map] at he
        rcases he with he | ⟨_, _, he⟩ | ⟨_, _, he⟩
        · rw [he]
        · rw [← he]
        · rw [← he]
  · intro hk hle hfail
    obtain ⟨err, evs, s3, j3, hf, hd⟩ := fetchDates_journaled_error C r c.name (elems tags) s1
      [⟨.ListTagsByImage c.name, none⟩] hfail
    rw [deleteImage_retention_fetch_error_state C.journaled S c (s, []) _ _ r tags err evs
      hname htag hk hregJ hlistJ hle hf]
    rw [hd]
    simp [deletions]

/-- C1, witness: with `keep = 1` on the image of 3 tags, whose date fetches
and deletions succeed, the registry receives the listing, three date fetches
and `max(0, 3 - 1) = 2` deletions. -/
theorem deleteImage_retention_count_witness :
    ((deleteImage (registryClient threeTags.net).journaled stableSort ⟨"img", "", 1⟩
      (World.start, [])).state.2).map (·.call) =
      [.ListTagsByImage "img", .GetImageDate "img" "v3", .GetImageDate "img" "v1",
       .GetImageDate "img" "v2", .DeleteImageByTag "img" "v1",
       .DeleteImageByTag "img" "v2"] ∧
    ((deletions (deleteImage (registryClient threeTags.net).journaled stableSort
      ⟨"img", "", 1⟩ (World.start, [])).state.2).length : Int) =
      max 0 (len (some ["v3", "v1", "v2"]) - 1) :=
  ⟨by decide,
   ((deleteImage_retention_count (registryClient threeTags.net) stableSort ⟨"img", "", 1⟩
      World.start _ fakeRegistry (some ["v3", "v1", "v2"]) (by decide) rfl rfl rfl).2.2.1
      (by decide)
      (fun tag => match threeTags.net.parseRFC1123 tag with
        | .ok t => t
        | .error _ => ⟨0⟩)
      (fun tag htag s2 => by
        simp only [elems, Option.getD_some, List.mem_cons, List.mem_singleton,
          List.not_mem_nil, or_false] at htag
        rcases htag with h | h | h <;> subst h <;> rfl)
      (fun tag htag s2 => by
        simp only [elems, Option.getD_some, List.mem_cons, List.mem_singleton,
          List.not_mem_nil, or_false] at htag
        rcases htag with h | h | h <;> subst h <;> rfl)).1⟩

/-- C2: when the listing gives N tags, every tag's date fetch succeeds
(`dateOf tag` being the date the registry returns for `tag`) and
`0 < keep < N`, the registry receives from `deleteImage` the listing, one
date fetch per tag in server order and then `DeleteImageByTag` for exactly
the first `N - keep` entries of the date-sorted sequence, in order, whatever
those calls return.  The sorted sequence is a rearrangement of the tags with
their dates in ascending date order, `keep` entries are retained, deleted
and retained tags together are a permutation of the tag list, and every
deleted tag's date is at most every retained tag's date. -/
theorem deleteImage_deletes_oldest {σ : Type} (C : Client σ) (S : SortImpl) (c : Context)
    (s s1 : σ) (r : Registry) (tags : Option (List String)) (dateOf : String → Time)
    (hname : c.name ≠ "") (htag : c.tag = "")
    (hreg : C.NewRegistry s = (r, none))
    (hlist : C.ListTagsByImage r c.name s = ((tags, none), s1))
    (hdate : ∀ tag ∈ elems tags, ∀ s2,
      (C.GetImageDate r c.name tag s2).1 = (dateOf tag, none))
    (hkeep : 0 < c.keep) (hless : c.keep < len tags) :
    ((deleteImage C.journaled S c (s, [])).state.2).map (·.call) =
      Call.ListTagsByImage c.name ::
        (elems tags).map (fun tag => Call.GetImageDate c.name tag) ++
        (oldestTags S dateOf (elems tags) c.keep).map
          (fun t => Call.DeleteImageByTag c.name t.Tag) ∧
    deletions (deleteImage C.journaled S c (s, [])).state.2 =
      (oldestTags S dateOf (elems tags) c.keep).map (fun t => (c.name, t.Tag)) ∧
    (S.sort (datedTags dateOf (elems tags))).Perm (datedTags dateOf (elems tags)) ∧
    (S.sort (datedTags dateOf (elems tags))).Pairwise (fun a b => a.Date ≤ b.Date) ∧
    oldestTags S dateOf (elems tags) c.keep ++ keptTags S dateOf (elems tags) c.keep =
      S.sort (datedTags dateOf (elems tags)) ∧
    (oldestTags S dateOf (elems tags) c.keep).length = (elems tags).length - c.keep.toNat ∧
    ((keptTags S dateOf (elems tags) c.keep).length : Int) = c.keep ∧
    ((oldestTags S dateOf (elems tags) c.keep).map (·.Tag) ++
      (keptTags S dateOf (elems tags) c.keep).map (·.Tag)).Perm (elems tags) ∧
    ∀ d ∈ oldestTags S dateOf (elems tags) c.keep,
      ∀ k ∈ keptTags S dateOf (elems tags) c.keep, d.Date ≤ k.Date := by
  have hmore : ¬ len tags ≤ c.keep := by omega
  obtain ⟨s3, hrun⟩ := deleteImage_journaled_run C S c s s1 r tags dateOf hname htag hkeep
    hreg hlist hmore hdate
  have hcalls := deleteLoop_journaled_calls C r c.name
    (oldestTags S dateOf (elems tags) c.keep) s3
    (⟨.ListTagsByImage c.name, none⟩ ::
      (elems tags).map (fun tag => ⟨.GetImageDate c.name tag, none⟩))
  rw [← hrun] at hcalls
  have hseq : ((deleteImage C.journaled S c (s, [])).state.2).map (·.call) =
      Call.ListTagsByImage c.name ::
        (elems tags).map (fun tag => Call.GetImageDate c.name tag) ++
        (oldestTags S dateOf (elems tags) c.keep).map
          (fun t => Call.DeleteImageByTag c.name t.Tag) := by
    rw [hcalls]
    simp [Function.comp_def]
  have hsorted := sortImpl_pairwise S (datedTags dateOf (elems tags))
  have happ := oldestTags_append_keptTags S dateOf (elems tags) c.keep
  refine ⟨hseq, ?_, sortImpl_perm S _, hsorted, happ, oldestTags_length S dateOf _ _, ?_, ?_,
    ?_⟩
  · have h1 : ∀ l : List String,
        List.filterMap (fun _ => (none : Option (String × String))) l = [] := by
      intro l
      induction l <;> simp_all
    have h2 : ∀ l : tagsAndDate, List.filterMap (fun x => some (c.name, x.Tag)) l =
        l.map (fun t => (c.name, t.Tag)) := by
      intro l
      induction l <;> simp_all
    rw [deletions_of_calls, hseq]
    simp [List.filterMap_append, List.filterMap_map, Function.comp_def, h1, h2]
  · rw [keptTags, List.length_drop, sort_datedTags_length]
    unfold len at hless
    omega
  · rw [← List.map_append, happ]
    have := (sortImpl_perm S (datedTags dateOf (elems tags))).map (·.Tag)
    rwa [datedTags_tags] at this
  · intro d hd k hk
    rw [← happ] at hsorted
    exact (List.pairwise_append.1 hsorted).2.2 d hd k hk

/-- C2, witness: on the image of 3 tags with `keep = 1` the registry
receives the deletions of `v1` and then `v2`, the two oldest. -/
theorem deleteImage_deletes_oldest_witness :
    deletions (deleteImage (registryClient threeTags.net).journaled stableSort
      ⟨"img", "", 1⟩ (World.start, [])).state.2 = [("img", "v1"), ("img", "v2")] ∧
    ((deleteImage (registryClient threeTags.net) stableSort ⟨"img", "", 1⟩
      World.start).state.sent.map (fun req => (req.Method, req.URL))).drop 4 =
      [("GET", "http://nexus/repository/docker/v2/img/manifests/v1"),
       ("DELETE", "http://nexus/repository/docker/v2/img/manifests/sha256:v1"),
       ("GET", "http://nexus/repository/docker/v2/img/manifests/v2"),
       ("DELETE", "http://nexus/repository/docker/v2/img/manifests/sha256:v2")] :=
  ⟨((deleteImage_deletes_oldest (registryClient threeTags.net) stableSort ⟨"img", "", 1⟩
      World.start _ fakeRegistry (some ["v3", "v1", "v2"])
      (fun tag => match threeTags.net.parseRFC1123 tag with
        | .ok t => t
        | .error _ => ⟨0⟩)
      (by decide) rfl rfl rfl
      (fun tag htag s2 => by
        simp only [elems, Option.getD_some, List.mem_cons, List.mem_singleton,
          List.not_mem_nil, or_false] at htag
        rcases htag with h | h | h <;> subst h <;> rfl)
      (by decide) (by decide)).2.1).trans (by decide),
   by decide⟩

/-- C3, the code at a failing input: the server answers every `DELETE` with
500; with `keep = 1` on the image of 3 tags the deletion of `v1` returns an
error, yet `deleteImage` goes on to attempt the deletion of `v2` and
returns `nil`.  On the same server the single-tag path, `--tag v1`, returns
the exit error. -/
theorem deleteImage_continues_after_failed_delete :
    (deleteImage (registryClient threeTagsDeleteFails.net) stableSort
      ⟨"img", "", 1⟩ World.start).ret = .nil ∧
    (deleteImage (registryClient threeTagsDeleteFails.net) stableSort
      ⟨"img", "", 1⟩ World.start).calls.drop 4 =
      [⟨.DeleteImageByTag "img" "v1", some "HTTP Code: 500"⟩,
       ⟨.DeleteImageByTag "img" "v2", some "HTTP Code: 500"⟩] ∧
    (deleteImage (registryClient threeTagsDeleteFails.net) stableSort
      ⟨"img", "v1", 0⟩ World.start).ret = .exitError "HTTP Code: 500" 1 := by
  decide

/-- C4, counterexample: for a manifest with two layers of `2^62` bytes under
different digests the sum is `2^63`, and `showTotalImageSize` prints
`-2^63`: the `int64` total wraps around. -/
theorem showTotalImageSize_wraps :
    specTotal hugeLayers.net.decodeImageManifest ["latest"] = 9223372036854775808 ∧
    (showTotalImageSize (registryClient hugeLayers.net) insertionOrder
      ⟨"img", "", 0⟩ World.start).out =
      [.printf "%d %s\n" [.int (-9223372036854775808), .str "img"]] := by
  decide

/-- C4, amended: when the listing gives the tags and every tag's manifest
fetch succeeds (`manifestOf tag` being the manifest of `tag`),
`showTotalImageSize` returns `nil` and prints as total the sum over the tags
of the sum over the distinct layer digests of the tag's manifest of the size
of the last layer with that digest, reduced to the `int64` range by
two's-complement wraparound, whatever the order `range` visits the map in;
that is the sum itself whenever it fits in an `int64`.  Nothing is
de-duplicated across tags. -/
theorem showTotalImageSize_total {σ : Type} (C : Client σ) (M : MapRange) (c : Context)
    (s s1 : σ) (r : Registry) (tags : Option (List String))
    (manifestOf : String → ImageManifest)
    (hname : c.name ≠ "")
    (hreg : C.NewRegistry s = (r, none))
    (hlist : C.ListTagsByImage r c.name s = ((tags, none), s1))
    (hman : ∀ tag ∈ elems tags, ∀ s2,
      (C.ImageManifest r c.name tag s2).1 = (manifestOf tag, none)) :
    (showTotalImageSize C M c s).ret = .nil ∧
    (showTotalImageSize C M c s).out =
      [.printf "%d %s\n" [.int (wrap64 (specTotal manifestOf (elems tags))), .str c.name]] ∧
    (-2 ^ 63 ≤ specTotal manifestOf (elems tags) ∧ specTotal manifestOf (elems tags) < 2 ^ 63 →
      (showTotalImageSize C M c s).out =
        [.printf "%d %s\n" [.int (specTotal manifestOf (elems tags)), .str c.name]]) := by
  have hloop := sizeLoop_total C M r c.name manifestOf (elems tags) 0 s1 hman (by decide)
  rcases hL : sizeLoop C M r c.name (elems tags) 0 s1 with ⟨res, evs, s2⟩
  rw [hL] at hloop
  simp only [zero_add] at hloop
  subst hloop
  have hout : (showTotalImageSize C M c s).ret = .nil ∧ (showTotalImageSize C M c s).out =
      [.printf "%d %s\n" [.int (wrap64 (specTotal manifestOf (elems tags))), .str c.name]] := by
    unfold showTotalImageSize
    simp only [hname, hreg, hlist, hL, beq_iff_eq, if_false]
    exact ⟨trivial, trivial⟩
  refine ⟨hout.1, hout.2, fun hfit => ?_⟩
  rw [hout.2, wrap64_of_fits _ hfit]

/-- C4, witness: the manifest with layers of sizes 10, 20, 10, the two of
size 10 under one digest, totals 30; two tags with a layer of size 5 each
and the shared layer `X` of size 100 total 210. -/
theorem showTotalImageSize_total_witness :
    (showTotalImageSize (registryClient repeatedLayer.net) reverseOrder
      ⟨"img", "", 0⟩ World.start).out = [.printf "%d %s\n" [.int 30, .str "img"]] ∧
    (showTotalImageSize (registryClient sharedLayer.net) reverseOrder
      ⟨"img", "", 0⟩ World.start).out = [.printf "%d %s\n" [.int 210, .str "img"]] :=
  ⟨((showTotalImageSize_total (registryClient repeatedLayer.net) reverseOrder ⟨"img", "", 0⟩
      World.start _ fakeRegistry (some ["latest"]) repeatedLayer.net.decodeImageManifest
      (by decide) rfl rfl
      (fun tag htag s2 => by
        simp only [elems, Option.getD_some, List.mem_singleton] at htag
        subst htag
        rfl)).2.2 (by decide)).trans (by decide),
   ((showTotalImageSize_total (registryClient sharedLayer.net) reverseOrder ⟨"img", "", 0⟩
      World.start _ fakeRegistry (some ["v1", "v2"]) sharedLayer.net.decodeImageManifest
      (by decide) rfl rfl
      (fun tag htag s2 => by
        simp only [elems, Option.getD_some, List.mem_cons, List.mem_singleton,
          List.not_mem_nil, or_false] at htag
        rcases htag with h | h <;> subst h <;> rfl)).2.2 (by decide)).trans (by decide)⟩

/-- C5: the sequence `sort.Sort` produces from a `tagsAndDate` is a
permutation of the input in which `date[i] <= date[i+1]` at every adjacent
index `i`. -/
theorem sort_ascending_permutation (S : SortImpl) (p : tagsAndDate) :
    (S.sort p).Perm p ∧
    ∀ (i : Nat) (h : i + 1 < (S.sort p).length),
      (S.sort p)[i].Date ≤ (S.sort p)[i + 1].Date := by
  refine ⟨sortImpl_perm S p, fun i h => ?_⟩
  exact (Less_eq_false_iff (S.sort p) i (i + 1) (by omega) h).1
    (S.ascending p i (i + 1) (by omega) h)

/-- C6, counterexample: the `sort.Sort` of Go 1.7 to 1.18 moves `a` behind
`b`, ..., `f`, which have the same date and came after it in server order.
`image tags --name img` then lists `a` last, and `image delete --name img
--keep 5` deletes `g` and `b`, where a stable sort deletes `g` and `a`. -/
theorem sort_not_stable :
    sevenTags.filter (fun e => e.Date = ⟨5⟩) =
      [⟨"a", ⟨5⟩⟩, ⟨"b", ⟨5⟩⟩, ⟨"c", ⟨5⟩⟩, ⟨"d", ⟨5⟩⟩, ⟨"e", ⟨5⟩⟩, ⟨"f", ⟨5⟩⟩] ∧
    legacySort.sort sevenTags =
      [⟨"g", ⟨1⟩⟩, ⟨"b", ⟨5⟩⟩, ⟨"c", ⟨5⟩⟩, ⟨"d", ⟨5⟩⟩, ⟨"e", ⟨5⟩⟩, ⟨"f", ⟨5⟩⟩, ⟨"a", ⟨5⟩⟩] ∧
    (legacySort.sort sevenTags).filter (fun e => e.Date = ⟨5⟩) ≠
      sevenTags.filter (fun e => e.Date = ⟨5⟩) ∧
    ((listTagsByImage (registryClient sevenTagsServer.net) legacySort
      ⟨"img", "", 0⟩ World.start).out.take 7).map
        (fun o => match o with
          | .printf _ (.str tag :: _) => tag
          | _ => "") = ["g", "b", "c", "d", "e", "f", "a"] ∧
    deletions (deleteImage (registryClient sevenTagsServer.net) legacySort
      ⟨"img", "", 5⟩ World.start).calls = [("img", "g"), ("img", "b")] ∧
    deletions (deleteImage (registryClient sevenTagsServer.net) stableSort
      ⟨"img", "", 5⟩ World.start).calls = [("img", "g"), ("img", "a")] := by
  decide

/-- C6, amended: in the sequence `sort.Sort` produces, an entry with a
strictly earlier date stands before every entry with a later date; the order
among entries of equal dates is not determined. -/
theorem sort_orders_distinct_dates (S : SortImpl) (p : tagsAndDate) (i j : Nat)
    (hi : i < (S.sort p).length) (hj : j < (S.sort p).length)
    (hlt : (S.sort p)[i].Date < (S.sort p)[j].Date) : i < j := by
  by_contra hge
  have hji : j ≤ i := by omega
  rcases Nat.lt_or_eq_of_le hji with h | h
  · have := (Less_eq_false_iff (S.sort p) j i hj hi).1 (S.ascending p j i h hi)
    have h1 : (S.sort p)[j].Date.nsec ≤ (S.sort p)[i].Date.nsec := this
    have h2 : (S.sort p)[i].Date.nsec < (S.sort p)[j].Date.nsec := hlt
    omega
  · subst h
    have h2 : (S.sort p)[j].Date.nsec < (S.sort p)[j].Date.nsec := hlt
    omega

/-- C6, witness: in the sorted seven tags the entry at index 0 is `g` of
date 1 and the entry at index 6 is `a` of date 5: the earlier date stands at
the smaller index. -/
theorem sort_orders_distinct_dates_witness :
    (legacySort.sort sevenTags)[0]? = some ⟨"g", ⟨1⟩⟩ ∧
    (legacySort.sort sevenTags)[6]? = some ⟨"a", ⟨5⟩⟩ ∧ (0 : Nat) < 6 :=
  ⟨by decide, by decide,
    sort_orders_distinct_dates legacySort sevenTags 0 6 (by decide) (by decide) (by decide)⟩

/-- C7, counterexample: for the image name `%zz` `http.NewRequest` rejects
the manifest URL, and `DeleteImageByTag` returns that error without issuing
any request, not even the `GET`. -/
theorem DeleteImageByTag_rejected_url_sends_nothing :
    (fakeRegistry.DeleteImageByTag threeTags.strictNet "%zz" "v1" World.start).2.sent = [] ∧
    (fakeRegistry.DeleteImageByTag threeTags.strictNet "%zz" "v1" World.start).1 =
      some ("parse http://nexus/repository/docker/v2/%zz/manifests/v1" ++
        ": invalid URL escape") := by
  decide

/-- C7, amended: for an image and tag whose manifest URL `http.NewRequest`
accepts, `DeleteImageByTag` issues first a `GET` to
`.../v2/{image}/manifests/{tag}`.  If that `GET` fails or answers a status
other than 200, nothing more is sent and an error is returned (with the
status code).  If it answers 200 and the request for
`.../v2/{image}/manifests/{digest}` can be built, `digest` being the
`Docker-Content-Digest` header of the answer, exactly one `DELETE` to it
follows and nothing after it; the result is success exactly when the `DELETE`
answers 202, the error `HTTP Code: <status>` for any other status, and the
transport error when the `DELETE` is not delivered. -/
theorem DeleteImageByTag_request_sequence {σ : Type} (N : Net σ) (r : Registry)
    (image tag : String) (w : World σ)
    (hget : N.requestError "GET" (r.manifestURL image tag) = none) :
    (∀ err, (N.Do (r.request "GET" (r.manifestURL image tag)) w.net).1 = .error err →
      (r.DeleteImageByTag N image tag w).2.sent =
        w.sent ++ [r.request "GET" (r.manifestURL image tag)] ∧
      (r.DeleteImageByTag N image tag w).1 = some err) ∧
    (∀ resp, (N.Do (r.request "GET" (r.manifestURL image tag)) w.net).1 = .ok resp →
      (resp.StatusCode ≠ 200 →
        (r.DeleteImageByTag N image tag w).2.sent =
          w.sent ++ [r.request "GET" (r.manifestURL image tag)] ∧
        (r.DeleteImageByTag N image tag w).1 = some (httpCodeError resp.StatusCode)) ∧
      (resp.StatusCode = 200 →
        (∀ err, N.requestError "DELETE"
            (r.manifestURL image (resp.HeaderGet "docker-content-digest")) = some err →
          (r.DeleteImageByTag N image tag w).2.sent =
            w.sent ++ [r.request "GET" (r.manifestURL image tag)] ∧
          (r.DeleteImageByTag N image tag w).1 = some err) ∧
        (N.requestError "DELETE"
            (r.manifestURL image (resp.HeaderGet "docker-content-digest")) = none →
          (r.DeleteImageByTag N image tag w).2.sent =
            w.sent ++ [r.request "GET" (r.manifestURL image tag),
              r.request "DELETE"
                (r.manifestURL image (resp.HeaderGet "docker-content-digest"))] ∧
          (∀ err, (N.Do (r.request "DELETE"
                (r.manifestURL image (resp.HeaderGet "docker-content-digest")))
              (N.Do (r.request "GET" (r.manifestURL image tag)) w.net).2).1 = .error err →
            (r.DeleteImageByTag N image tag w).1 = some err) ∧
          (∀ resp2, (N.Do (r.request "DELETE"
                (r.manifestURL image (resp.HeaderGet "docker-content-digest")))
              (N.Do (r.request "GET" (r.manifestURL image tag)) w.net).2).1 = .ok resp2 →
            ((r.DeleteImageByTag N image tag w).1 = none ↔ resp2.StatusCode = 202) ∧
            (resp2.StatusCode ≠ 202 →
              (r.DeleteImageByTag N image tag w).1 =
                some (httpCodeError resp2.StatusCode)))))) := by
  obtain ⟨hw, hv⟩ := getImageSHA_run N r image tag w hget
  rcases hs : r.getImageSHA N image tag w with ⟨⟨sha, e⟩, w1⟩
  rw [hs] at hw hv
  simp only at hw hv
  subst hw
  refine ⟨?_, ?_⟩
  · intro err hdo
    rw [hdo] at hv
    simp only [Prod.mk.injEq] at hv
    obtain ⟨_, he⟩ := hv
    subst he
    simp [Registry.DeleteImageByTag, hs]
  · intro resp hdo
    rw [hdo] at hv
    refine ⟨?_, ?_⟩
    · intro hne
      simp only [hne, ne_eq, not_false_eq_true, if_true, Prod.mk.injEq] at hv
      obtain ⟨_, he⟩ := hv
      subst he
      simp [Registry.DeleteImageByTag, hs]
    · intro h200
      simp only [h200, ne_eq, not_true_eq_false, if_false, Prod.mk.injEq] at hv
      obtain ⟨hsha, he⟩ := hv
      subst hsha he
      refine ⟨?_, ?_⟩
      · intro err herr
        simp [Registry.DeleteImageByTag, hs, NewRequest, herr]
      · intro hdel
        simp only [Registry.DeleteImageByTag, hs, NewRequest_ok N _ _ hdel, request_built,
          clientDo]
        rcases N.Do (r.request "DELETE"
          (r.manifestURL image (resp.HeaderGet "docker-content-digest")))
          (N.Do (r.request "GET" (r.manifestURL image tag)) w.net).2 with ⟨res2, n2⟩
        cases res2 with
        | error err2 => simp
        | ok resp2 =>
          by_cases h202 : resp2.StatusCode = 202
          · simp [h202]
          · simp [h202]

/-- C7, witness: deleting the tag `v1` of `img` sends the `GET` by tag, then
the `DELETE` by the digest the `GET` answered, and succeeds on the 202. -/
theorem DeleteImageByTag_request_sequence_witness :
    (fakeRegistry.DeleteImageByTag threeTags.net "img" "v1" World.start).2.sent =
      [fakeRegistry.request "GET" "http://nexus/repository/docker/v2/img/manifests/v1",
       fakeRegistry.request "DELETE"
         "http://nexus/repository/docker/v2/img/manifests/sha256:v1"] ∧
    (fakeRegistry.DeleteImageByTag threeTags.net "img" "v1" World.start).1 = none :=
  ⟨((((DeleteImageByTag_request_sequence threeTags.net fakeRegistry "img" "v1" World.start
      rfl).2 _ rfl).2 rfl).2 rfl).1,
   ((((((DeleteImageByTag_request_sequence threeTags.net fakeRegistry "img" "v1" World.start
      rfl).2 _ rfl).2 rfl).2 rfl).2.2 _ rfl).1).2 rfl⟩

/-- C8, the code at a failing input: the server answers the tag listing
with 404, so `ListTagsByImage` returns an error; `image tags --name img`
drops it, prints a count of 0 and its action returns `nil`, where
`image delete --name img --keep 1` returns the exit error.  Likewise
`image delete --name img --keep 1` returns `nil` although both of its
`DeleteImageByTag` calls return an error. -/
theorem listTagsByImage_drops_listing_error :
    (listTagsByImage (registryClient threeTagsListFails.net) stableSort
      ⟨"img", "", 0⟩ World.start).calls =
      [⟨.ListTagsByImage "img", some "HTTP Code: 404"⟩] ∧
    (listTagsByImage (registryClient threeTagsListFails.net) stableSort
      ⟨"img", "", 0⟩ World.start).ret = .nil ∧
    (listTagsByImage (registryClient threeTagsListFails.net) stableSort
      ⟨"img", "", 0⟩ World.start).out =
      [.printf "There are %d images for %s\n" [.int 0, .str "img"]] ∧
    (deleteImage (registryClient threeTagsListFails.net) stableSort
      ⟨"img", "", 1⟩ World.start).ret = .exitError "HTTP Code: 404" 1 ∧
    (deleteImage (registryClient threeTagsDeleteFails.net) stableSort
      ⟨"img", "", 1⟩ World.start).calls.map (·.err) =
      [none, none, none, none, some "HTTP Code: 500", some "HTTP Code: 500"] ∧
    (deleteImage (registryClient threeTagsDeleteFails.net) stableSort
      ⟨"img", "", 1⟩ World.start).ret = .nil := by
  decide

/-- C9: when `http.NewRequest` builds the catalog request and the transport
delivers a response to it, `ListImages` returns an error exactly when the
status code is not 200; the error is then `HTTP Code: <status>` and the
returned image list is `nil`, whatever the body holds; on 200 the list is
the decoded `repositories` field and the error is `nil`. -/
theorem ListImages_error_iff_not_200 {σ : Type} (N : Net σ) (r : Registry) (w : World σ)
    (resp : Response)
    (hreq : N.requestError "GET" (r.Host ++ "/repository/" ++ r.Repository ++ "/v2/_catalog") =
      none)
    (hdo : (N.Do (r.request "GET" (r.Host ++ "/repository/" ++ r.Repository ++ "/v2/_catalog"))
      w.net).1 = .ok resp) :
    ((r.ListImages N w).1.2 ≠ none ↔ resp.StatusCode ≠ 200) ∧
    (resp.StatusCode ≠ 200 →
      (r.ListImages N w).1 = (none, some ("HTTP Code: " ++ toString resp.StatusCode))) ∧
    (resp.StatusCode = 200 →
      (r.ListImages N w).1 = ((N.decodeRepositories resp.Body).Images, none)) := by
  unfold Registry.ListImages
  simp only [NewRequest_ok N _ _ hreq, request_built, clientDo, hdo]
  by_cases h : resp.StatusCode = 200
  · simp [h]
  · simp [h, httpCodeError]

/-- C9, witness: on a 404 `ListImages` returns the nil list and the error
`HTTP Code: 404`; on a 200 it returns the decoded list and no error. -/
theorem ListImages_error_iff_not_200_witness :
    (fakeRegistry.ListImages threeTagsListFails.net World.start).1 =
      (none, some "HTTP Code: 404") ∧
    (fakeRegistry.ListImages threeTags.net World.start).1 = (some ["img"], none) :=
  ⟨(ListImages_error_iff_not_200 threeTagsListFails.net fakeRegistry World.start
      { StatusCode := 404, HeaderGet := fun _ => "", Body := "" } rfl rfl).2.1 (by decide),
   (ListImages_error_iff_not_200 threeTags.net fakeRegistry World.start
      { StatusCode := 200, HeaderGet := fun _ => "", Body := "" } rfl rfl).2.2 rfl⟩

/-- C10, the code at a failing input: `image delete --name img --keep -1`
on the image of 3 tags reaches the slice expression with the bound
`3 - (-1) = 4`, beyond the capacity 3, and the runtime panics. -/
theorem deleteImage_negative_keep_panics :
    sliceTo (stableSort.sort [⟨"v3", ⟨30⟩⟩, ⟨"v1", ⟨10⟩⟩, ⟨"v2", ⟨20⟩⟩]) 3 (3 - (-1)) = none ∧
    (deleteImage (registryClient threeTags.net) stableSort ⟨"img", "", -1⟩ World.start).ret =
      .panic "slice bounds out of range" ∧
    deletions (deleteImage (registryClient threeTags.net) stableSort
      ⟨"img", "", -1⟩ World.start).calls = [] := by
  decide

end NexusCli
